import Mathlib

/-!
Verification of the spalipy detection-based image-registration core
(`spalipy/spalipy.py`) against its natural-language specification.

The Python core is shallowly embedded over `ℚ`.  Euclidean distances appear in
the source only through comparisons (`argmax`/`argmin`/`sort` of distance
arrays, and comparisons against the nonnegative thresholds `maxmatchdist`,
`minquadsep`, `minquaddist`, `minsep`).  Since `Real.sqrt` is monotone, every
such comparison is equivalent to the corresponding comparison of squared
distances against squared thresholds, so the embedding works throughout with
squared Euclidean distances (`sqd`) and squared thresholds.  `numpy` argsort /
argmin / argmax tie-breaking is modelled deterministically by the
first-occurrence / stable-sort convention (`np.argmax` and `np.argmin` document
first-occurrence; for `argsort` only the selected minima values matter to the
program logic).
-/

/-- A 2-D point (an `x, y` coordinate pair), as used throughout the source. -/
abbrev Pt : Type := ℚ × ℚ

/-- Squared Euclidean distance between two points. -/
def sqd (p q : Pt) : ℚ := (p.1 - q.1) ^ 2 + (p.2 - q.2) ^ 2

theorem sqd_comm (p q : Pt) : sqd p q = sqd q p := by
  unfold sqd; ring

theorem sqd_nonneg (p q : Pt) : 0 ≤ sqd p q := by
  unfold sqd; positivity

/-- `class AffineTransform`: rotation + isotropic scaling + shift,
`[x', y'] = [[a -b], [b a]] * [x, y] + [c d]`, parameters `v = [a, b, c, d]`. -/
structure AffineTransform where
  a : ℚ
  b : ℚ
  c : ℚ
  d : ℚ
deriving DecidableEq, Inhabited

namespace AffineTransform

/-- `AffineTransform.apply_transform` for a single `(x, y)` point (the source
applies the same formulas `xn = a*x - b*y + c`, `yn = b*x + a*y + d`
componentwise over arrays of points). -/
def apply_transform (t : AffineTransform) (p : Pt) : Pt :=
  (t.a * p.1 - t.b * p.2 + t.c, t.b * p.1 + t.a * p.2 + t.d)

/-- The homogeneous-coordinate 3×3 matrix `homo` built by
`AffineTransform.inverse`. -/
def homo (t : AffineTransform) : Matrix (Fin 3) (Fin 3) ℚ :=
  !![t.a, -t.b, t.c; t.b, t.a, t.d; 0, 0, 1]

/-- `AffineTransform.inverse`: the source inverts `homo` with
`scipy.linalg.inv` and reads the parameters of the inverse transform off the
entries `inv[0,0], inv[1,0], inv[0,2], inv[1,2]`.  The matrix inverse is
embedded by its defining formula `det⁻¹ • adjugate`. -/
def inverse (t : AffineTransform) : AffineTransform :=
  let m := t.homo
  let mi := (m.det)⁻¹ • m.adjugate
  ⟨mi 0 0, mi 1 0, mi 0 2, mi 1 2⟩

/-- `AffineTransform.matrix_form`: the `(matrix, offset)` pair handed to
`scipy.ndimage.interpolation.affine_transform`. -/
def matrix_form (t : AffineTransform) : Matrix (Fin 2) (Fin 2) ℚ × Pt :=
  (!![t.a, -t.b; t.b, t.a], (t.c, t.d))

theorem det_homo (t : AffineTransform) : t.homo.det = t.a ^ 2 + t.b ^ 2 := by
  rw [homo, Matrix.det_fin_three]
  simp [Matrix.cons_val_zero, Matrix.cons_val_one]
  ring

/-- Closed form of `inverse`, obtained by evaluating the adjugate of the
homogeneous matrix. -/
theorem inverse_eq (t : AffineTransform) :
    t.inverse =
      ⟨t.a / (t.a ^ 2 + t.b ^ 2), -t.b / (t.a ^ 2 + t.b ^ 2),
        (-(t.a * t.c) - t.b * t.d) / (t.a ^ 2 + t.b ^ 2),
        (t.b * t.c - t.a * t.d) / (t.a ^ 2 + t.b ^ 2)⟩ := by
  show AffineTransform.mk _ _ _ _ = _
  rw [Matrix.adjugate_fin_three, det_homo]
  unfold homo
  rw [AffineTransform.mk.injEq]
  simp only [Matrix.smul_apply, Matrix.cons_val', Matrix.cons_val_zero,
    Matrix.cons_val_one, Matrix.head_cons, Matrix.head_fin_const,
    Matrix.empty_val', Matrix.cons_val_fin_one, smul_eq_mul]
  refine ⟨?_, ?_, ?_, ?_⟩ <;> rw [div_eq_inv_mul] <;>
    refine congrArg (fun z => (t.a ^ 2 + t.b ^ 2)⁻¹ * z) ?_ <;>
    simp <;> ring

end AffineTransform

/-- C6: for every similarity transform with `a² + b² > 0` and every point `p`,
mapping `p` through the transform and back through its inverse (as computed by
`AffineTransform.inverse` from the homogeneous matrix) returns `p` exactly:
the round-trip law of the spec, read as `inverse.apply (apply p) = p`. -/
theorem c6_roundtrip (t : AffineTransform) (p : Pt)
    (h : 0 < t.a ^ 2 + t.b ^ 2) :
    t.inverse.apply_transform (t.apply_transform p) = p := by
  have hs : t.a ^ 2 + t.b ^ 2 ≠ 0 := ne_of_gt h
  rw [AffineTransform.inverse_eq]
  unfold AffineTransform.apply_transform
  obtain ⟨x, y⟩ := p
  refine Prod.ext ?_ ?_ <;> (show _ = _) <;> field_simp <;> ring

/-- Witness for C6 at a concrete transform and point. -/
theorem c6_roundtrip_witness :
    0 < (2 : ℚ) ^ 2 + (1 : ℚ) ^ 2 ∧
      (AffineTransform.mk 2 1 3 (-4)).inverse.apply_transform
        ((AffineTransform.mk 2 1 3 (-4)).apply_transform (5, 7)) = (5, 7) :=
  ⟨by norm_num, c6_roundtrip ⟨2, 1, 3, -4⟩ (5, 7) (by norm_num)⟩

/-!
## Quad hasher (`quad` function)

`quad(combo, dists)` receives the 4 chosen detections and their 6 pairwise
distances in `scipy.spatial.distance.pdist` order
`[(0,1), (0,2), (0,3), (1,2), (1,3), (2,3)]`, picks the maximum-distance pair
via `np.argmax` (first occurrence), reorders the points so that pair comes
first, maps that pair to `(0,0), (1,1)` by a similarity transform, expresses
the other two points in that frame and breaks the remaining symmetries.
-/

/-- First-occurrence running maximum scan: `amAux l bv bi ci` returns the index
of the first maximum of the virtual list whose current best value/index are
`bv`/`bi` and whose remaining elements are `l` starting at index `ci`. -/
def amAux : List ℚ → ℚ → ℕ → ℕ → ℕ
  | [], _, bi, _ => bi
  | v :: vs, bv, bi, ci => if bv < v then amAux vs v ci (ci + 1) else amAux vs bv bi (ci + 1)

/-- `np.argmax` over a list: index of the first occurrence of the maximum
(`np.argmax` documents first-occurrence tie-breaking). -/
def argmaxL : List ℚ → ℕ
  | [] => 0
  | v :: vs => amAux vs v 0 1

/-- The 6 squared pairwise distances of 4 points in `pdist` order. -/
def pdistList (p : Fin 4 → Pt) : List ℚ :=
  [sqd (p 0) (p 1), sqd (p 0) (p 2), sqd (p 0) (p 3),
   sqd (p 1) (p 2), sqd (p 1) (p 3), sqd (p 2) (p 3)]

/-- The `orders` table of `quad`: entry `k` reorders the 4 points so that the
`k`-th `pdist` pair comes first. -/
def orders : ℕ → Fin 4 → Fin 4
  | 0 => ![0, 1, 2, 3]
  | 1 => ![0, 2, 1, 3]
  | 2 => ![0, 3, 1, 2]
  | 3 => ![1, 2, 0, 3]
  | 4 => ![1, 3, 0, 2]
  | _ => ![2, 3, 0, 1]

/-- The similarity transform `[[a -b], [b a]] + [c d]` that `quad` derives in
closed form to bring `A` and `B` to `(0,0)` and `(1,1)`
(`x = Bx - Ax`, `y = By - Ay`, `b = (x-y)/(x²+y²)`, `a = (1/x)(1 + b y)`,
`c = b·Ay - a·Ax`, `d = -(b·Ax + a·Ay)`).  Over `ℚ`, division by zero yields
`0`; the Python source divides `numpy` floats, producing `inf`/`nan` when
`x = 0` (see C10). -/
def quad_transform_params (A B : Pt) : AffineTransform :=
  let x := B.1 - A.1
  let y := B.2 - A.2
  let b := (x - y) / (x ^ 2 + y ^ 2)
  let a := (1 / x) * (1 + b * y)
  ⟨a, b, b * A.2 - a * A.1, -(b * A.1 + a * A.2)⟩

/-- The hash computation of `quad` after the points have been reordered so the
maximum-distance pair is first: compute `(xC, yC), (xD, yD)` in the normalized
frame and break the symmetries (`testa = xC > xD`, `testb = xC + xD > 1`),
returning the (re-reordered) points and the signature 4-tuple. -/
def quad_hash_core (q : Fin 4 → Pt) : (Fin 4 → Pt) × (ℚ × ℚ × ℚ × ℚ) :=
  let t := quad_transform_params (q 0) (q 1)
  let C := t.apply_transform (q 2)
  let D := t.apply_transform (q 3)
  if C.1 > D.1 then
    if C.1 + D.1 > 1 then (q ∘ ![1, 0, 2, 3], (1 - C.1, 1 - C.2, 1 - D.1, 1 - D.2))
    else (q ∘ ![0, 1, 3, 2], (D.1, D.2, C.1, C.2))
  else if C.1 + D.1 > 1 then (q ∘ ![1, 0, 3, 2], (1 - D.1, 1 - D.2, 1 - C.1, 1 - C.2))
  else (q, (C.1, C.2, D.1, D.2))

/-- The full `quad` function: select the maximum-distance pair by `np.argmax`
over the `pdist` distances, reorder via the `orders` table, then hash. -/
def quad (p : Fin 4 → Pt) : (Fin 4 → Pt) × (ℚ × ℚ × ℚ × ℚ) :=
  quad_hash_core (p ∘ orders (argmaxL (pdistList p)))

theorem quad_eq_core_of_argmax (p : Fin 4 → Pt) (k : ℕ)
    (h : argmaxL (pdistList p) = k) : quad p = quad_hash_core (p ∘ orders k) := by
  rw [quad, h]

theorem quad_denom_ne (A B : Pt) (hx : B.1 - A.1 ≠ 0) :
    (B.1 - A.1) ^ 2 + (B.2 - A.2) ^ 2 ≠ 0 := by
  intro h
  apply hx
  have h1 : (B.1 - A.1) ^ 2 = 0 := by
    nlinarith [sq_nonneg (B.1 - A.1), sq_nonneg (B.2 - A.2)]
  exact pow_eq_zero_iff (two_ne_zero) |>.mp h1

/-- Closed form of the `quad` normalizing transform when `Δx ≠ 0`: the nested
division in `a = (1/x)(1 + b y)` simplifies to `a = (x + y) / (x² + y²)`. -/
theorem qtp_closed (A B : Pt) (hx : B.1 - A.1 ≠ 0) :
    quad_transform_params A B =
      ⟨(B.1 - A.1 + (B.2 - A.2)) / ((B.1 - A.1) ^ 2 + (B.2 - A.2) ^ 2),
       (B.1 - A.1 - (B.2 - A.2)) / ((B.1 - A.1) ^ 2 + (B.2 - A.2) ^ 2),
       ((B.1 - A.1 - (B.2 - A.2)) * A.2 - (B.1 - A.1 + (B.2 - A.2)) * A.1) /
         ((B.1 - A.1) ^ 2 + (B.2 - A.2) ^ 2),
       (-((B.1 - A.1 - (B.2 - A.2)) * A.1 + (B.1 - A.1 + (B.2 - A.2)) * A.2)) /
         ((B.1 - A.1) ^ 2 + (B.2 - A.2) ^ 2)⟩ := by
  have hs := quad_denom_ne A B hx
  have ha : (1 / (B.1 - A.1)) *
      (1 + (B.1 - A.1 - (B.2 - A.2)) / ((B.1 - A.1) ^ 2 + (B.2 - A.2) ^ 2) * (B.2 - A.2)) =
      (B.1 - A.1 + (B.2 - A.2)) / ((B.1 - A.1) ^ 2 + (B.2 - A.2) ^ 2) := by
    field_simp
    ring
  simp only [quad_transform_params]
  rw [ha, AffineTransform.mk.injEq]
  refine ⟨rfl, rfl, ?_, ?_⟩ <;> field_simp <;> ring

/-- Swapping the two long-diagonal points composes the normalizing transform
with the point reflection through `(1/2, 1/2)`: the transform built from
`(B, A)` sends any `P` to `(1,1)` minus where the transform built from `(A, B)`
sends it. -/
theorem qtp_swap (A B P : Pt) (hx : B.1 - A.1 ≠ 0) :
    (quad_transform_params B A).apply_transform P =
      (1 - ((quad_transform_params A B).apply_transform P).1,
       1 - ((quad_transform_params A B).apply_transform P).2) := by
  have hs := quad_denom_ne A B hx
  have hx' : A.1 - B.1 ≠ 0 := fun h => hx (by linarith)
  have hs' := quad_denom_ne B A hx'
  rw [qtp_closed A B hx, qtp_closed B A hx']
  simp only [AffineTransform.apply_transform]
  refine Prod.ext ?_ ?_ <;> (show _ = _) <;> field_simp <;> ring

/-- Under the genericity conditions `xC ≠ xD` and `xC + xD ≠ 1`, the
symmetry-breaking step makes the hash invariant to which of the two
long-diagonal points is listed first. -/
theorem core_swapAB (A B C D : Pt) (hx : B.1 - A.1 ≠ 0)
    (hCD : ((quad_transform_params A B).apply_transform C).1 ≠
      ((quad_transform_params A B).apply_transform D).1)
    (hsum : ((quad_transform_params A B).apply_transform C).1 +
      ((quad_transform_params A B).apply_transform D).1 ≠ 1) :
    (quad_hash_core ![B, A, C, D]).2 = (quad_hash_core ![A, B, C, D]).2 := by
  have e0 : (![B, A, C, D] : Fin 4 → Pt) 0 = B := rfl
  have e1 : (![B, A, C, D] : Fin 4 → Pt) 1 = A := rfl
  have e2 : (![B, A, C, D] : Fin 4 → Pt) 2 = C := rfl
  have e3 : (![B, A, C, D] : Fin 4 → Pt) 3 = D := rfl
  have f0 : (![A, B, C, D] : Fin 4 → Pt) 0 = A := rfl
  have f1 : (![A, B, C, D] : Fin 4 → Pt) 1 = B := rfl
  have f2 : (![A, B, C, D] : Fin 4 → Pt) 2 = C := rfl
  have f3 : (![A, B, C, D] : Fin 4 → Pt) 3 = D := rfl
  simp only [quad_hash_core, e0, e1, e2, e3, f0, f1, f2, f3,
    qtp_swap A B C hx, qtp_swap A B D hx]
  set xC := ((quad_transform_params A B).apply_transform C).1 with hxC
  set yC := ((quad_transform_params A B).apply_transform C).2 with hyC
  set xD := ((quad_transform_params A B).apply_transform D).1 with hxD
  set yD := ((quad_transform_params A B).apply_transform D).2 with hyD
  rcases lt_or_gt_of_ne hCD with hlt | hlt <;>
    rcases lt_or_gt_of_ne hsum with hsl | hsl <;>
    split_ifs <;>
    first
      | (exfalso; linarith)
      | (simp only [Prod.mk.injEq] <;> refine ⟨by ring, by ring, by ring, by ring⟩)

/-- Under the genericity conditions, the symmetry-breaking step also makes the
hash invariant to the listing order of the two off-diagonal points. -/
theorem core_swapCD (A B C D : Pt)
    (hCD : ((quad_transform_params A B).apply_transform C).1 ≠
      ((quad_transform_params A B).apply_transform D).1)
    (hsum : ((quad_transform_params A B).apply_transform C).1 +
      ((quad_transform_params A B).apply_transform D).1 ≠ 1) :
    (quad_hash_core ![A, B, D, C]).2 = (quad_hash_core ![A, B, C, D]).2 := by
  have e0 : (![A, B, D, C] : Fin 4 → Pt) 0 = A := rfl
  have e1 : (![A, B, D, C] : Fin 4 → Pt) 1 = B := rfl
  have e2 : (![A, B, D, C] : Fin 4 → Pt) 2 = D := rfl
  have e3 : (![A, B, D, C] : Fin 4 → Pt) 3 = C := rfl
  have f0 : (![A, B, C, D] : Fin 4 → Pt) 0 = A := rfl
  have f1 : (![A, B, C, D] : Fin 4 → Pt) 1 = B := rfl
  have f2 : (![A, B, C, D] : Fin 4 → Pt) 2 = C := rfl
  have f3 : (![A, B, C, D] : Fin 4 → Pt) 3 = D := rfl
  simp only [quad_hash_core, e0, e1, e2, e3, f0, f1, f2, f3]
  set xC := ((quad_transform_params A B).apply_transform C).1 with hxC
  set yC := ((quad_transform_params A B).apply_transform C).2 with hyC
  set xD := ((quad_transform_params A B).apply_transform D).1 with hxD
  set yD := ((quad_transform_params A B).apply_transform D).2 with hyD
  rcases lt_or_gt_of_ne hCD with hlt | hlt <;>
    rcases lt_or_gt_of_ne hsum with hsl | hsl <;>
    split_ifs <;>
    first
      | (exfalso; linarith)
      | (simp only [Prod.mk.injEq] <;> refine ⟨by ring, by ring, by ring, by ring⟩)

/-- Combination of `core_swapAB` and `core_swapCD`. -/
theorem core_swapBoth (A B C D : Pt) (hx : B.1 - A.1 ≠ 0)
    (hCD : ((quad_transform_params A B).apply_transform C).1 ≠
      ((quad_transform_params A B).apply_transform D).1)
    (hsum : ((quad_transform_params A B).apply_transform C).1 +
      ((quad_transform_params A B).apply_transform D).1 ≠ 1) :
    (quad_hash_core ![B, A, D, C]).2 = (quad_hash_core ![A, B, C, D]).2 := by
  rw [core_swapAB A B D C hx (Ne.symm hCD) (by rw [add_comm]; exact hsum)]
  exact core_swapCD A B C D hCD hsum

theorem argmax6_eq_0 (d0 d1 d2 d3 d4 d5 : ℚ) (g1 : d1 < d0) (g2 : d2 < d0)
    (g3 : d3 < d0) (g4 : d4 < d0) (g5 : d5 < d0) :
    argmaxL [d0, d1, d2, d3, d4, d5] = 0 := by
  simp only [argmaxL, amAux]
  split_ifs <;> first | rfl | (exfalso; linarith)

theorem argmax6_eq_1 (d0 d1 d2 d3 d4 d5 : ℚ) (g0 : d0 < d1) (g2 : d2 < d1)
    (g3 : d3 < d1) (g4 : d4 < d1) (g5 : d5 < d1) :
    argmaxL [d0, d1, d2, d3, d4, d5] = 1 := by
  simp only [argmaxL, amAux]
  split_ifs <;> first | rfl | (exfalso; linarith)

theorem argmax6_eq_2 (d0 d1 d2 d3 d4 d5 : ℚ) (g0 : d0 < d2) (g1 : d1 < d2)
    (g3 : d3 < d2) (g4 : d4 < d2) (g5 : d5 < d2) :
    argmaxL [d0, d1, d2, d3, d4, d5] = 2 := by
  simp only [argmaxL, amAux]
  split_ifs <;> first | rfl | (exfalso; linarith)

theorem argmax6_eq_3 (d0 d1 d2 d3 d4 d5 : ℚ) (g0 : d0 < d3) (g1 : d1 < d3)
    (g2 : d2 < d3) (g4 : d4 < d3) (g5 : d5 < d3) :
    argmaxL [d0, d1, d2, d3, d4, d5] = 3 := by
  simp only [argmaxL, amAux]
  split_ifs <;> first | rfl | (exfalso; linarith)

theorem argmax6_eq_4 (d0 d1 d2 d3 d4 d5 : ℚ) (g0 : d0 < d4) (g1 : d1 < d4)
    (g2 : d2 < d4) (g3 : d3 < d4) (g5 : d5 < d4) :
    argmaxL [d0, d1, d2, d3, d4, d5] = 4 := by
  simp only [argmaxL, amAux]
  split_ifs <;> first | rfl | (exfalso; linarith)

theorem argmax6_eq_5 (d0 d1 d2 d3 d4 d5 : ℚ) (g0 : d0 < d5) (g1 : d1 < d5)
    (g2 : d2 < d5) (g3 : d3 < d5) (g4 : d4 < d5) :
    argmaxL [d0, d1, d2, d3, d4, d5] = 5 := by
  simp only [argmaxL, amAux]
  split_ifs <;> first | rfl | (exfalso; linarith)

/-- The 24 bijections of `Fin 4`, enumerated. -/
theorem perm4_cases (f : Fin 4 → Fin 4) (hf : Function.Bijective f) :
    f = ![0, 1, 2, 3] ∨ f = ![0, 1, 3, 2] ∨ f = ![0, 2, 1, 3] ∨ f = ![0, 2, 3, 1] ∨
    f = ![0, 3, 1, 2] ∨ f = ![0, 3, 2, 1] ∨ f = ![1, 0, 2, 3] ∨ f = ![1, 0, 3, 2] ∨
    f = ![1, 2, 0, 3] ∨ f = ![1, 2, 3, 0] ∨ f = ![1, 3, 0, 2] ∨ f = ![1, 3, 2, 0] ∨
    f = ![2, 0, 1, 3] ∨ f = ![2, 0, 3, 1] ∨ f = ![2, 1, 0, 3] ∨ f = ![2, 1, 3, 0] ∨
    f = ![2, 3, 0, 1] ∨ f = ![2, 3, 1, 0] ∨ f = ![3, 0, 1, 2] ∨ f = ![3, 0, 2, 1] ∨
    f = ![3, 1, 0, 2] ∨ f = ![3, 1, 2, 0] ∨ f = ![3, 2, 0, 1] ∨ f = ![3, 2, 1, 0] := by
  revert hf
  revert f
  set_option maxRecDepth 10000 in decide

/-- C1 (amended): for 4 points whose maximum-distance pair is strictly unique,
whose normalizing transform is defined (long-diagonal `Δx ≠ 0`) and whose
canonicalization tests are strict (`xC ≠ xD` and `xC + xD ≠ 1`), the signature
4-tuple computed by `quad` is identical for all 24 enumeration orders of the
same 4 labeled points. -/
theorem c1_quad_hash_invariant (A B C D : Pt) (σ : Equiv.Perm (Fin 4))
    (h1 : sqd A C < sqd A B) (h2 : sqd A D < sqd A B) (h3 : sqd B C < sqd A B)
    (h4 : sqd B D < sqd A B) (h5 : sqd C D < sqd A B)
    (hx : B.1 - A.1 ≠ 0)
    (hCD : ((quad_transform_params A B).apply_transform C).1 ≠
      ((quad_transform_params A B).apply_transform D).1)
    (hsum : ((quad_transform_params A B).apply_transform C).1 +
      ((quad_transform_params A B).apply_transform D).1 ≠ 1) :
    (quad (![A, B, C, D] ∘ ⇑σ)).2 = (quad ![A, B, C, D]).2 := by
  have h1' : sqd C A < sqd A B := by rw [sqd_comm]; exact h1
  have h2' : sqd D A < sqd A B := by rw [sqd_comm]; exact h2
  have h3' : sqd C B < sqd A B := by rw [sqd_comm]; exact h3
  have h4' : sqd D B < sqd A B := by rw [sqd_comm]; exact h4
  have h5' : sqd D C < sqd A B := by rw [sqd_comm]; exact h5
  have hS : sqd B A = sqd A B := sqd_comm B A
  have k1 : sqd A C < sqd B A := by rw [hS]; exact h1
  have k2 : sqd A D < sqd B A := by rw [hS]; exact h2
  have k3 : sqd B C < sqd B A := by rw [hS]; exact h3
  have k4 : sqd B D < sqd B A := by rw [hS]; exact h4
  have k5 : sqd C D < sqd B A := by rw [hS]; exact h5
  have k1' : sqd C A < sqd B A := by rw [hS]; exact h1'
  have k2' : sqd D A < sqd B A := by rw [hS]; exact h2'
  have k3' : sqd C B < sqd B A := by rw [hS]; exact h3'
  have k4' : sqd D B < sqd B A := by rw [hS]; exact h4'
  have k5' : sqd D C < sqd B A := by rw [hS]; exact h5'
  have hbase : quad ![A, B, C, D] = quad_hash_core ![A, B, C, D] := by
    rw [quad_eq_core_of_argmax ![A, B, C, D] 0 (argmax6_eq_0 _ _ _ _ _ _ h1 h2 h3 h4 h5)]
    rw [show (![A, B, C, D] : Fin 4 → Pt) ∘ orders 0 = ![A, B, C, D] from by
      funext i; fin_cases i <;> rfl]
  rw [hbase]
  rcases perm4_cases (⇑σ) σ.bijective with
    hσ | hσ | hσ | hσ | hσ | hσ | hσ | hσ | hσ | hσ | hσ | hσ |
    hσ | hσ | hσ | hσ | hσ | hσ | hσ | hσ | hσ | hσ | hσ | hσ
  · rw [show (![A, B, C, D] : Fin 4 → Pt) ∘ ⇑σ = ![A, B, C, D] from by
        rw [hσ]; funext i; fin_cases i <;> rfl]
    rw [quad_eq_core_of_argmax ![A, B, C, D] 0 (argmax6_eq_0 _ _ _ _ _ _ h1 h2 h3 h4 h5)]
    rw [show (![A, B, C, D] : Fin 4 → Pt) ∘ orders 0 = ![A, B, C, D] from by
        funext i; fin_cases i <;> rfl]
  · rw [show (![A, B, C, D] : Fin 4 → Pt) ∘ ⇑σ = ![A, B, D, C] from by
        rw [hσ]; funext i; fin_cases i <;> rfl]
    rw [quad_eq_core_of_argmax ![A, B, D, C] 0 (argmax6_eq_0 _ _ _ _ _ _ h2 h1 h4 h3 h5')]
    rw [show (![A, B, D, C] : Fin 4 → Pt) ∘ orders 0 = ![A, B, D, C] from by
        funext i; fin_cases i <;> rfl]
    exact core_swapCD A B C D hCD hsum
  · rw [show (![A, B, C, D] : Fin 4 → Pt) ∘ ⇑σ = ![A, C, B, D] from by
        rw [hσ]; funext i; fin_cases i <;> rfl]
    rw [quad_eq_core_of_argmax ![A, C, B, D] 1 (argmax6_eq_1 _ _ _ _ _ _ h1 h2 h3' h5 h4)]
    rw [show (![A, C, B, D] : Fin 4 → Pt) ∘ orders 1 = ![A, B, C, D] from by
        funext i; fin_cases i <;> rfl]
  · rw [show (![A, B, C, D] : Fin 4 → Pt) ∘ ⇑σ = ![A, C, D, B] from by
        rw [hσ]; funext i; fin_cases i <;> rfl]
    rw [quad_eq_core_of_argmax ![A, C, D, B] 2 (argmax6_eq_2 _ _ _ _ _ _ h1 h2 h5 h3' h4')]
    rw [show (![A, C, D, B] : Fin 4 → Pt) ∘ orders 2 = ![A, B, C, D] from by
        funext i; fin_cases i <;> rfl]
  · rw [show (![A, B, C, D] : Fin 4 → Pt) ∘ ⇑σ = ![A, D, B, C] from by
        rw [hσ]; funext i; fin_cases i <;> rfl]
    rw [quad_eq_core_of_argmax ![A, D, B, C] 1 (argmax6_eq_1 _ _ _ _ _ _ h2 h1 h4' h5' h3)]
    rw [show (![A, D, B, C] : Fin 4 → Pt) ∘ orders 1 = ![A, B, D, C] from by
        funext i; fin_cases i <;> rfl]
    exact core_swapCD A B C D hCD hsum
  · rw [show (![A, B, C, D] : Fin 4 → Pt) ∘ ⇑σ = ![A, D, C, B] from by
        rw [hσ]; funext i; fin_cases i <;> rfl]
    rw [quad_eq_core_of_argmax ![A, D, C, B] 2 (argmax6_eq_2 _ _ _ _ _ _ h2 h1 h5' h4' h3')]
    rw [show (![A, D, C, B] : Fin 4 → Pt) ∘ orders 2 = ![A, B, D, C] from by
        funext i; fin_cases i <;> rfl]
    exact core_swapCD A B C D hCD hsum
  · rw [show (![A, B, C, D] : Fin 4 → Pt) ∘ ⇑σ = ![B, A, C, D] from by
        rw [hσ]; funext i; fin_cases i <;> rfl]
    rw [quad_eq_core_of_argmax ![B, A, C, D] 0 (argmax6_eq_0 _ _ _ _ _ _ k3 k4 k1 k2 k5)]
    rw [show (![B, A, C, D] : Fin 4 → Pt) ∘ orders 0 = ![B, A, C, D] from by
        funext i; fin_cases i <;> rfl]
    exact core_swapAB A B C D hx hCD hsum
  · rw [show (![A, B, C, D] : Fin 4 → Pt) ∘ ⇑σ = ![B, A, D, C] from by
        rw [hσ]; funext i; fin_cases i <;> rfl]
    rw [quad_eq_core_of_argmax ![B, A, D, C] 0 (argmax6_eq_0 _ _ _ _ _ _ k4 k3 k2 k1 k5')]
    rw [show (![B, A, D, C] : Fin 4 → Pt) ∘ orders 0 = ![B, A, D, C] from by
        funext i; fin_cases i <;> rfl]
    exact core_swapBoth A B C D hx hCD hsum
  · rw [show (![A, B, C, D] : Fin 4 → Pt) ∘ ⇑σ = ![B, C, A, D] from by
        rw [hσ]; funext i; fin_cases i <;> rfl]
    rw [quad_eq_core_of_argmax ![B, C, A, D] 1 (argmax6_eq_1 _ _ _ _ _ _ k3 k4 k1' k5 k2)]
    rw [show (![B, C, A, D] : Fin 4 → Pt) ∘ orders 1 = ![B, A, C, D] from by
        funext i; fin_cases i <;> rfl]
    exact core_swapAB A B C D hx hCD hsum
  · rw [show (![A, B, C, D] : Fin 4 → Pt) ∘ ⇑σ = ![B, C, D, A] from by
        rw [hσ]; funext i; fin_cases i <;> rfl]
    rw [quad_eq_core_of_argmax ![B, C, D, A] 2 (argmax6_eq_2 _ _ _ _ _ _ k3 k4 k5 k1' k2')]
    rw [show (![B, C, D, A] : Fin 4 → Pt) ∘ orders 2 = ![B, A, C, D] from by
        funext i; fin_cases i <;> rfl]
    exact core_swapAB A B C D hx hCD hsum
  · rw [show (![A, B, C, D] : Fin 4 → Pt) ∘ ⇑σ = ![B, D, A, C] from by
        rw [hσ]; funext i; fin_cases i <;> rfl]
    rw [quad_eq_core_of_argmax ![B, D, A, C] 1 (argmax6_eq_1 _ _ _ _ _ _ k4 k3 k2' k5' k1)]
    rw [show (![B, D, A, C] : Fin 4 → Pt) ∘ orders 1 = ![B, A, D, C] from by
        funext i; fin_cases i <;> rfl]
    exact core_swapBoth A B C D hx hCD hsum
  · rw [show (![A, B, C, D] : Fin 4 → Pt) ∘ ⇑σ = ![B, D, C, A] from by
        rw [hσ]; funext i; fin_cases i <;> rfl]
    rw [quad_eq_core_of_argmax ![B, D, C, A] 2 (argmax6_eq_2 _ _ _ _ _ _ k4 k3 k5' k2' k1')]
    rw [show (![B, D, C, A] : Fin 4 → Pt) ∘ orders 2 = ![B, A, D, C] from by
        funext i; fin_cases i <;> rfl]
    exact core_swapBoth A B C D hx hCD hsum
  · rw [show (![A, B, C, D] : Fin 4 → Pt) ∘ ⇑σ = ![C, A, B, D] from by
        rw [hσ]; funext i; fin_cases i <;> rfl]
    rw [quad_eq_core_of_argmax ![C, A, B, D] 3 (argmax6_eq_3 _ _ _ _ _ _ h1' h3' h5 h2 h4)]
    rw [show (![C, A, B, D] : Fin 4 → Pt) ∘ orders 3 = ![A, B, C, D] from by
        funext i; fin_cases i <;> rfl]
  · rw [show (![A, B, C, D] : Fin 4 → Pt) ∘ ⇑σ = ![C, A, D, B] from by
        rw [hσ]; funext i; fin_cases i <;> rfl]
    rw [quad_eq_core_of_argmax ![C, A, D, B] 4 (argmax6_eq_4 _ _ _ _ _ _ h1' h5 h3' h2 h4')]
    rw [show (![C, A, D, B] : Fin 4 → Pt) ∘ orders 4 = ![A, B, C, D] from by
        funext i; fin_cases i <;> rfl]
  · rw [show (![A, B, C, D] : Fin 4 → Pt) ∘ ⇑σ = ![C, B, A, D] from by
        rw [hσ]; funext i; fin_cases i <;> rfl]
    rw [quad_eq_core_of_argmax ![C, B, A, D] 3 (argmax6_eq_3 _ _ _ _ _ _ k3' k1' k5 k4 k2)]
    rw [show (![C, B, A, D] : Fin 4 → Pt) ∘ orders 3 = ![B, A, C, D] from by
        funext i; fin_cases i <;> rfl]
    exact core_swapAB A B C D hx hCD hsum
  · rw [show (![A, B, C, D] : Fin 4 → Pt) ∘ ⇑σ = ![C, B, D, A] from by
        rw [hσ]; funext i; fin_cases i <;> rfl]
    rw [quad_eq_core_of_argmax ![C, B, D, A] 4 (argmax6_eq_4 _ _ _ _ _ _ k3' k5 k1' k4 k2')]
    rw [show (![C, B, D, A] : Fin 4 → Pt) ∘ orders 4 = ![B, A, C, D] from by
        funext i; fin_cases i <;> rfl]
    exact core_swapAB A B C D hx hCD hsum
  · rw [show (![A, B, C, D] : Fin 4 → Pt) ∘ ⇑σ = ![C, D, A, B] from by
        rw [hσ]; funext i; fin_cases i <;> rfl]
    rw [quad_eq_core_of_argmax ![C, D, A, B] 5 (argmax6_eq_5 _ _ _ _ _ _ h5 h1' h3' h2' h4')]
    rw [show (![C, D, A, B] : Fin 4 → Pt) ∘ orders 5 = ![A, B, C, D] from by
        funext i; fin_cases i <;> rfl]
  · rw [show (![A, B, C, D] : Fin 4 → Pt) ∘ ⇑σ = ![C, D, B, A] from by
        rw [hσ]; funext i; fin_cases i <;> rfl]
    rw [quad_eq_core_of_argmax ![C, D, B, A] 5 (argmax6_eq_5 _ _ _ _ _ _ k5 k3' k1' k4' k2')]
    rw [show (![C, D, B, A] : Fin 4 → Pt) ∘ orders 5 = ![B, A, C, D] from by
        funext i; fin_cases i <;> rfl]
    exact core_swapAB A B C D hx hCD hsum
  · rw [show (![A, B, C, D] : Fin 4 → Pt) ∘ ⇑σ = ![D, A, B, C] from by
        rw [hσ]; funext i; fin_cases i <;> rfl]
    rw [quad_eq_core_of_argmax ![D, A, B, C] 3 (argmax6_eq_3 _ _ _ _ _ _ h2' h4' h5' h1 h3)]
    rw [show (![D, A, B, C] : Fin 4 → Pt) ∘ orders 3 = ![A, B, D, C] from by
        funext i; fin_cases i <;> rfl]
    exact core_swapCD A B C D hCD hsum
  · rw [show (![A, B, C, D] : Fin 4 → Pt) ∘ ⇑σ = ![D, A, C, B] from by
        rw [hσ]; funext i; fin_cases i <;> rfl]
    rw [quad_eq_core_of_argmax ![D, A, C, B] 4 (argmax6_eq_4 _ _ _ _ _ _ h2' h5' h4' h1 h3')]
    rw [show (![D, A, C, B] : Fin 4 → Pt) ∘ orders 4 = ![A, B, D, C] from by
        funext i; fin_cases i <;> rfl]
    exact core_swapCD A B C D hCD hsum
  · rw [show (![A, B, C, D] : Fin 4 → Pt) ∘ ⇑σ = ![D, B, A, C] from by
        rw [hσ]; funext i; fin_cases i <;> rfl]
    rw [quad_eq_core_of_argmax ![D, B, A, C] 3 (argmax6_eq_3 _ _ _ _ _ _ k4' k2' k5' k3 k1)]
    rw [show (![D, B, A, C] : Fin 4 → Pt) ∘ orders 3 = ![B, A, D, C] from by
        funext i; fin_cases i <;> rfl]
    exact core_swapBoth A B C D hx hCD hsum
  · rw [show (![A, B, C, D] : Fin 4 → Pt) ∘ ⇑σ = ![D, B, C, A] from by
        rw [hσ]; funext i; fin_cases i <;> rfl]
    rw [quad_eq_core_of_argmax ![D, B, C, A] 4 (argmax6_eq_4 _ _ _ _ _ _ k4' k5' k2' k3 k1')]
    rw [show (![D, B, C, A] : Fin 4 → Pt) ∘ orders 4 = ![B, A, D, C] from by
        funext i; fin_cases i <;> rfl]
    exact core_swapBoth A B C D hx hCD hsum
  · rw [show (![A, B, C, D] : Fin 4 → Pt) ∘ ⇑σ = ![D, C, A, B] from by
        rw [hσ]; funext i; fin_cases i <;> rfl]
    rw [quad_eq_core_of_argmax ![D, C, A, B] 5 (argmax6_eq_5 _ _ _ _ _ _ h5' h2' h4' h1' h3')]
    rw [show (![D, C, A, B] : Fin 4 → Pt) ∘ orders 5 = ![A, B, D, C] from by
        funext i; fin_cases i <;> rfl]
    exact core_swapCD A B C D hCD hsum
  · rw [show (![A, B, C, D] : Fin 4 → Pt) ∘ ⇑σ = ![D, C, B, A] from by
        rw [hσ]; funext i; fin_cases i <;> rfl]
    rw [quad_eq_core_of_argmax ![D, C, B, A] 5 (argmax6_eq_5 _ _ _ _ _ _ k5' k4' k2' k3' k1')]
    rw [show (![D, C, B, A] : Fin 4 → Pt) ∘ orders 5 = ![B, A, D, C] from by
        funext i; fin_cases i <;> rfl]
    exact core_swapBoth A B C D hx hCD hsum

/-- Counterexample to C1 as stated: for the 4 distinct points
`(0,0), (1,1), (3/10, 2/5), (7/10, 9/20)` (whose long diagonal is unique and
whose normalized frame gives `xC + xD = 1` exactly, a boundary of the
`xC + xD > 1` test), swapping the enumeration order of the first two points
changes the computed signature. -/
theorem c1_counterexample :
    (quad (![((0 : ℚ), (0 : ℚ)), (1, 1), (3/10, 2/5), (7/10, 9/20)]
        ∘ ⇑(Equiv.swap (0 : Fin 4) 1))).2 ≠
      (quad ![((0 : ℚ), (0 : ℚ)), (1, 1), (3/10, 2/5), (7/10, 9/20)]).2 := by
  have hv : (![((0 : ℚ), (0 : ℚ)), (1, 1), (3/10, 2/5), (7/10, 9/20)]
      ∘ ⇑(Equiv.swap (0 : Fin 4) 1))
      = ![((1 : ℚ), (1 : ℚ)), (0, 0), (3/10, 2/5), (7/10, 9/20)] := by
    funext i
    fin_cases i <;> rfl
  rw [hv]
  have e1 : argmaxL (pdistList ![((0 : ℚ), (0 : ℚ)), (1, 1), (3/10, 2/5), (7/10, 9/20)]) = 0 :=
    argmax6_eq_0 _ _ _ _ _ _ (by norm_num [sqd]) (by norm_num [sqd]) (by norm_num [sqd])
      (by norm_num [sqd]) (by norm_num [sqd])
  have e2 : argmaxL (pdistList ![((1 : ℚ), (1 : ℚ)), (0, 0), (3/10, 2/5), (7/10, 9/20)]) = 0 :=
    argmax6_eq_0 _ _ _ _ _ _ (by norm_num [sqd]) (by norm_num [sqd]) (by norm_num [sqd])
      (by norm_num [sqd]) (by norm_num [sqd])
  rw [quad_eq_core_of_argmax _ 0 e1, quad_eq_core_of_argmax _ 0 e2]
  rw [show (![((1 : ℚ), (1 : ℚ)), (0, 0), (3/10, 2/5), (7/10, 9/20)] : Fin 4 → Pt) ∘ orders 0
      = ![((1 : ℚ), (1 : ℚ)), (0, 0), (3/10, 2/5), (7/10, 9/20)] from by
    funext i; fin_cases i <;> rfl]
  rw [show (![((0 : ℚ), (0 : ℚ)), (1, 1), (3/10, 2/5), (7/10, 9/20)] : Fin 4 → Pt) ∘ orders 0
      = ![((0 : ℚ), (0 : ℚ)), (1, 1), (3/10, 2/5), (7/10, 9/20)] from by
    funext i; fin_cases i <;> rfl]
  have b0 : (![((0 : ℚ), (0 : ℚ)), (1, 1), (3/10, 2/5), (7/10, 9/20)] : Fin 4 → Pt) 0 = (0, 0) := rfl
  have b1 : (![((0 : ℚ), (0 : ℚ)), (1, 1), (3/10, 2/5), (7/10, 9/20)] : Fin 4 → Pt) 1 = (1, 1) := rfl
  have b2 : (![((0 : ℚ), (0 : ℚ)), (1, 1), (3/10, 2/5), (7/10, 9/20)] : Fin 4 → Pt) 2 = (3/10, 2/5) := rfl
  have b3 : (![((0 : ℚ), (0 : ℚ)), (1, 1), (3/10, 2/5), (7/10, 9/20)] : Fin 4 → Pt) 3 = (7/10, 9/20) := rfl
  have s0 : (![((1 : ℚ), (1 : ℚ)), (0, 0), (3/10, 2/5), (7/10, 9/20)] : Fin 4 → Pt) 0 = (1, 1) := rfl
  have s1 : (![((1 : ℚ), (1 : ℚ)), (0, 0), (3/10, 2/5), (7/10, 9/20)] : Fin 4 → Pt) 1 = (0, 0) := rfl
  have s2 : (![((1 : ℚ), (1 : ℚ)), (0, 0), (3/10, 2/5), (7/10, 9/20)] : Fin 4 → Pt) 2 = (3/10, 2/5) := rfl
  have s3 : (![((1 : ℚ), (1 : ℚ)), (0, 0), (3/10, 2/5), (7/10, 9/20)] : Fin 4 → Pt) 3 = (7/10, 9/20) := rfl
  norm_num [quad_hash_core, quad_transform_params, AffineTransform.apply_transform,
    b0, b1, b2, b3, s0, s1, s2, s3, Prod.ext_iff]

/-- Witness for the amended C1 theorem at a concrete generic quad and a
concrete permutation. -/
theorem c1_quad_hash_invariant_witness :
    (sqd ((0 : ℚ), (0 : ℚ)) (3/10, 2/5) < sqd ((0 : ℚ), (0 : ℚ)) (1, 1) ∧
     sqd ((0 : ℚ), (0 : ℚ)) (3/5, 1/5) < sqd ((0 : ℚ), (0 : ℚ)) (1, 1) ∧
     sqd ((1 : ℚ), (1 : ℚ)) (3/10, 2/5) < sqd ((0 : ℚ), (0 : ℚ)) (1, 1) ∧
     sqd ((1 : ℚ), (1 : ℚ)) (3/5, 1/5) < sqd ((0 : ℚ), (0 : ℚ)) (1, 1) ∧
     sqd ((3/10 : ℚ), (2/5 : ℚ)) (3/5, 1/5) < sqd ((0 : ℚ), (0 : ℚ)) (1, 1) ∧
     ((1 : ℚ), (1 : ℚ)).1 - ((0 : ℚ), (0 : ℚ)).1 ≠ 0 ∧
     ((quad_transform_params ((0 : ℚ), (0 : ℚ)) (1, 1)).apply_transform (3/10, 2/5)).1 ≠
       ((quad_transform_params ((0 : ℚ), (0 : ℚ)) (1, 1)).apply_transform (3/5, 1/5)).1 ∧
     ((quad_transform_params ((0 : ℚ), (0 : ℚ)) (1, 1)).apply_transform (3/10, 2/5)).1 +
       ((quad_transform_params ((0 : ℚ), (0 : ℚ)) (1, 1)).apply_transform (3/5, 1/5)).1 ≠ 1) ∧
    (quad (![((0 : ℚ), (0 : ℚ)), (1, 1), (3/10, 2/5), (3/5, 1/5)]
        ∘ ⇑(Equiv.swap (0 : Fin 4) 1))).2 =
      (quad ![((0 : ℚ), (0 : ℚ)), (1, 1), (3/10, 2/5), (3/5, 1/5)]).2 :=
  ⟨⟨by norm_num [sqd], by norm_num [sqd], by norm_num [sqd], by norm_num [sqd],
    by norm_num [sqd], by norm_num,
    by norm_num [quad_transform_params, AffineTransform.apply_transform],
    by norm_num [quad_transform_params, AffineTransform.apply_transform]⟩,
   c1_quad_hash_invariant ((0 : ℚ), (0 : ℚ)) (1, 1) (3/10, 2/5) (3/5, 1/5)
     (Equiv.swap (0 : Fin 4) 1)
     (by norm_num [sqd]) (by norm_num [sqd]) (by norm_num [sqd]) (by norm_num [sqd])
     (by norm_num [sqd]) (by norm_num)
     (by norm_num [quad_transform_params, AffineTransform.apply_transform])
     (by norm_num [quad_transform_params, AffineTransform.apply_transform])⟩

/-- C10: the `quad` hash computation divides by `x = Δx` of the selected
long-diagonal pair (and by `x² + y²`).  First part: whenever `Δx ≠ 0` the
derived transform indeed maps the pair to `(0,0)` and `(1,1)` (so the
signature is well defined).  Second part: there is a valid quad — 4 distinct
points, all pairwise squared distances above `minquadsep² = 4`, with a unique
maximum-distance pair — whose selected pair has `Δx = 0`; there the closed-form
construction breaks down (over `ℚ` the transform no longer sends `B` to
`(1,1)`; over `numpy` floats the division produces `inf`/`nan`), exhibiting the
unstated precondition `Δx ≠ 0`. -/
theorem c10_quad_division_by_zero :
    (∀ A B : Pt, B.1 - A.1 ≠ 0 →
      (quad_transform_params A B).apply_transform A = (0, 0) ∧
      (quad_transform_params A B).apply_transform B = (1, 1)) ∧
    (((![((0 : ℚ), (0 : ℚ)), (0, 10), (1, 4), (-1, 6)] : Fin 4 → Pt)
        ∘ orders (argmaxL (pdistList ![((0 : ℚ), (0 : ℚ)), (0, 10), (1, 4), (-1, 6)]))) 1).1 -
      (((![((0 : ℚ), (0 : ℚ)), (0, 10), (1, 4), (-1, 6)] : Fin 4 → Pt)
        ∘ orders (argmaxL (pdistList ![((0 : ℚ), (0 : ℚ)), (0, 10), (1, 4), (-1, 6)]))) 0).1 = 0 ∧
    (∀ i j : Fin 4, i ≠ j →
      (![((0 : ℚ), (0 : ℚ)), (0, 10), (1, 4), (-1, 6)] : Fin 4 → Pt) i ≠
        (![((0 : ℚ), (0 : ℚ)), (0, 10), (1, 4), (-1, 6)] : Fin 4 → Pt) j) ∧
    (∀ i j : Fin 4, i ≠ j →
      4 < sqd ((![((0 : ℚ), (0 : ℚ)), (0, 10), (1, 4), (-1, 6)] : Fin 4 → Pt) i)
        ((![((0 : ℚ), (0 : ℚ)), (0, 10), (1, 4), (-1, 6)] : Fin 4 → Pt) j)) ∧
    (quad_transform_params
        (((![((0 : ℚ), (0 : ℚ)), (0, 10), (1, 4), (-1, 6)] : Fin 4 → Pt)
          ∘ orders (argmaxL (pdistList ![((0 : ℚ), (0 : ℚ)), (0, 10), (1, 4), (-1, 6)]))) 0)
        (((![((0 : ℚ), (0 : ℚ)), (0, 10), (1, 4), (-1, 6)] : Fin 4 → Pt)
          ∘ orders (argmaxL (pdistList ![((0 : ℚ), (0 : ℚ)), (0, 10), (1, 4), (-1, 6)]))) 1)).apply_transform
      (((![((0 : ℚ), (0 : ℚ)), (0, 10), (1, 4), (-1, 6)] : Fin 4 → Pt)
        ∘ orders (argmaxL (pdistList ![((0 : ℚ), (0 : ℚ)), (0, 10), (1, 4), (-1, 6)]))) 1) ≠ (1, 1) := by
  have e0 : argmaxL (pdistList ![((0 : ℚ), (0 : ℚ)), (0, 10), (1, 4), (-1, 6)]) = 0 :=
    argmax6_eq_0 _ _ _ _ _ _ (by norm_num [sqd]) (by norm_num [sqd]) (by norm_num [sqd])
      (by norm_num [sqd]) (by norm_num [sqd])
  refine ⟨?_, ?_, ?_, ?_, ?_⟩
  · intro A B hx
    have hs := quad_denom_ne A B hx
    rw [qtp_closed A B hx]
    unfold AffineTransform.apply_transform
    constructor <;> refine Prod.ext ?_ ?_ <;> (show _ = _) <;> field_simp <;> ring
  · rw [e0]
    norm_num [orders]
  · intro i j hij
    fin_cases i <;> fin_cases j <;> simp_all [Prod.ext_iff] <;> norm_num
  · intro i j hij
    fin_cases i <;> fin_cases j <;> simp_all [sqd] <;> norm_num
  · rw [e0]
    norm_num [orders, quad_transform_params, AffineTransform.apply_transform, Prod.ext_iff]

/-!
## Similarity transform estimator (`calc_affine_transform`)

The source stacks, per correspondence, the two linear equations in
`(a, b, c, d)` — rows `[x, -y, 1, 0]` (even rows, the `x'` equations) and
`[y, x, 0, 1]` (odd rows, the `y'` equations) — into a `2n × 4` design matrix
with target `template_coo.ravel()`, then uses `scipy.linalg.solve` for
`n == 2` and `scipy.linalg.lstsq` otherwise.  `linalg.solve` on a nonsingular
system and `linalg.lstsq` on a full-column-rank system return the unique
(least-squares) solution, embedded here by the closed forms
`det⁻¹ • adjugate ⬝ b` and `(A.transposeA)⁻¹ A.transpose b`.  In the general case the `2n` rows
are indexed by `Fin n × Fin 2` (the row order does not affect `A.transposeA` or `A.transposeb`).
-/

/-- The `4 × 4` design matrix for exactly 2 correspondences, rows in source
order `[x-eq p0, y-eq p0, x-eq p1, y-eq p1]`. -/
def design2 (p0 p1 : Pt) : Matrix (Fin 4) (Fin 4) ℚ :=
  !![p0.1, -p0.2, 1, 0;
     p0.2,  p0.1, 0, 1;
     p1.1, -p1.2, 1, 0;
     p1.2,  p1.1, 0, 1]

/-- `template_coo.ravel()` for 2 correspondences. -/
def target2 (q0 q1 : Pt) : Fin 4 → ℚ := ![q0.1, q0.2, q1.1, q1.2]

/-- `scipy.linalg.solve`: the unique solution of a nonsingular square system,
by the inverse-matrix formula. -/
def lin_solve (M : Matrix (Fin 4) (Fin 4) ℚ) (b : Fin 4 → ℚ) : Fin 4 → ℚ :=
  (M.det)⁻¹ • (M.adjugate.mulVec b)

/-- The `2n × 4` design matrix, rows indexed by `(i, 0)` (`x'` equation of
point `i`) and `(i, 1)` (`y'` equation). -/
def designN {n : ℕ} (p : Fin n → Pt) : Matrix (Fin n × Fin 2) (Fin 4) ℚ :=
  fun r => if r.2 = 0 then ![(p r.1).1, -(p r.1).2, 1, 0] else ![(p r.1).2, (p r.1).1, 0, 1]

/-- `template_coo.ravel()` in the same row indexing. -/
def targetN {n : ℕ} (q : Fin n → Pt) : Fin n × Fin 2 → ℚ :=
  fun r => if r.2 = 0 then (q r.1).1 else (q r.1).2

/-- `scipy.linalg.lstsq`: on a full-column-rank system, the unique least
squares minimizer `(A.transposeA)⁻¹ A.transpose b` (normal equations). -/
def lstsq {n : ℕ} (A : Matrix (Fin n × Fin 2) (Fin 4) ℚ) (b : Fin n × Fin 2 → ℚ) :
    Fin 4 → ℚ :=
  ((A.transpose * A).det)⁻¹ • ((A.transpose * A).adjugate.mulVec (A.transpose.mulVec b))

/-- `calc_affine_transform(source_coo, template_coo)`. -/
def calc_affine_transform (src templ : List Pt) : AffineTransform :=
  if src.length = 2 then
    let v := lin_solve (design2 (src.getD 0 (0, 0)) (src.getD 1 (0, 0)))
      (target2 (templ.getD 0 (0, 0)) (templ.getD 1 (0, 0)))
    ⟨v 0, v 1, v 2, v 3⟩
  else
    let v := lstsq (designN fun i : Fin src.length => src.getD i.1 (0, 0))
      (targetN fun i : Fin src.length => templ.getD i.1 (0, 0))
    ⟨v 0, v 1, v 2, v 3⟩

theorem lin_solve_exact (M : Matrix (Fin 4) (Fin 4) ℚ) (v0 : Fin 4 → ℚ)
    (hdet : M.det ≠ 0) : lin_solve M (M.mulVec v0) = v0 := by
  unfold lin_solve
  rw [Matrix.mulVec_mulVec, Matrix.adjugate_mul, Matrix.smul_mulVec_assoc,
    Matrix.one_mulVec, smul_smul, inv_mul_cancel₀ hdet, one_smul]

theorem lstsq_exact {n : ℕ} (A : Matrix (Fin n × Fin 2) (Fin 4) ℚ) (v0 : Fin 4 → ℚ)
    (hdet : (A.transpose * A).det ≠ 0) : lstsq A (A.mulVec v0) = v0 := by
  unfold lstsq
  rw [Matrix.mulVec_mulVec, Matrix.mulVec_mulVec, Matrix.mul_assoc, Matrix.adjugate_mul,
    Matrix.smul_mulVec_assoc, Matrix.one_mulVec, smul_smul, inv_mul_cancel₀ hdet, one_smul]

theorem det_design2 (p0 p1 : Pt) :
    (design2 p0 p1).det = (p1.1 - p0.1) ^ 2 + (p1.2 - p0.2) ^ 2 := by
  simp [design2, Matrix.det_succ_row_zero, Fin.sum_univ_succ, Fin.succAbove]
  ring

theorem sum_sq_ne_zero (u v : ℚ) (h : u ≠ 0 ∨ v ≠ 0) : u ^ 2 + v ^ 2 ≠ 0 := by
  rcases h with h | h
  · have : 0 < u ^ 2 := by positivity
    nlinarith [sq_nonneg v]
  · have : 0 < v ^ 2 := by positivity
    nlinarith [sq_nonneg u]

/-- The normal matrix `AᵀA` of the design matrix in closed form. -/
theorem designN_gram {n : ℕ} (p : Fin n → Pt) :
    (designN p).transpose * designN p =
      !![∑ a, ((p a).1 ^ 2 + (p a).2 ^ 2), 0, ∑ a, (p a).1, ∑ a, (p a).2;
         0, ∑ a, ((p a).1 ^ 2 + (p a).2 ^ 2), -∑ a, (p a).2, ∑ a, (p a).1;
         ∑ a, (p a).1, -∑ a, (p a).2, (n : ℚ), 0;
         ∑ a, (p a).2, ∑ a, (p a).1, 0, (n : ℚ)] := by
  ext i j
  fin_cases i <;> fin_cases j <;>
    simp [Matrix.mul_apply, Matrix.transpose_apply, designN, Fintype.sum_prod_type,
      Fin.sum_univ_two] <;>
    first
      | exact Finset.sum_congr rfl fun a _ => by ring
      | exact Finset.sum_eq_zero fun a _ => by ring
      | (rw [← Finset.sum_neg_distrib]; exact Finset.sum_congr rfl fun a _ => by ring)
      | simp [Finset.sum_const, Finset.card_univ]

theorem det_gram (S P Q nq : ℚ) :
    Matrix.det !![S, 0, P, Q; 0, S, -Q, P; P, -Q, nq, 0; Q, P, 0, nq] =
      (nq * S - P ^ 2 - Q ^ 2) ^ 2 := by
  simp [Matrix.det_succ_row_zero, Fin.sum_univ_succ, Fin.succAbove, Fin.lt_def,
    Fin.succ, Fin.castSucc, Fin.castAdd, Fin.castLE]
  ring

theorem sq_gap_expand (n : ℕ) (h : Fin n → ℚ) :
    ∑ a : Fin n, ∑ b : Fin n, (h a - h b) ^ 2
      = 2 * ((n : ℚ) * (∑ a, h a ^ 2) - (∑ a, h a) ^ 2) := by
  have inner : ∀ a : Fin n, ∑ b : Fin n, (h a - h b) ^ 2
      = (n : ℚ) * h a ^ 2 - 2 * h a * (∑ b, h b) + ∑ b, h b ^ 2 := by
    intro a
    rw [Finset.sum_congr rfl fun b _ =>
      (by ring : (h a - h b) ^ 2 = h a ^ 2 - 2 * h a * h b + h b ^ 2)]
    rw [Finset.sum_add_distrib, Finset.sum_sub_distrib, Finset.sum_const,
      Finset.card_univ, Fintype.card_fin, nsmul_eq_mul]
    simp only [← Finset.mul_sum]
    try ring
  rw [Finset.sum_congr rfl fun a _ => inner a]
  rw [Finset.sum_add_distrib, Finset.sum_sub_distrib, Finset.sum_const,
    Finset.card_univ, Fintype.card_fin, nsmul_eq_mul]
  simp only [← Finset.mul_sum, ← Finset.sum_mul]
  ring

theorem double_sum_lower (n : ℕ) (F : Fin n → Fin n → ℚ) (hF : ∀ a b, 0 ≤ F a b)
    (i j : Fin n) : F i j ≤ ∑ a : Fin n, ∑ b : Fin n, F a b := by
  have h1 : F i j ≤ ∑ b : Fin n, F i b :=
    Finset.single_le_sum (fun b _ => hF i b) (Finset.mem_univ j)
  have h2 : (∑ b : Fin n, F i b) ≤ ∑ a : Fin n, ∑ b : Fin n, F a b :=
    Finset.single_le_sum (fun a _ => Finset.sum_nonneg fun b _ => hF a b)
      (Finset.mem_univ i)
  linarith

/-- Strict positivity of `n·Σ(x²+y²) − (Σx)² − (Σy)²` when at least two of the
points differ (full column rank of the design matrix). -/
theorem gram_quantity_pos {n : ℕ} (p : Fin n → Pt) (i j : Fin n) (hne : p i ≠ p j) :
    0 < (n : ℚ) * (∑ a, ((p a).1 ^ 2 + (p a).2 ^ 2)) -
      (∑ a, (p a).1) ^ 2 - (∑ a, (p a).2) ^ 2 := by
  have hT : ∑ a : Fin n, ∑ b : Fin n,
      (((p a).1 - (p b).1) ^ 2 + ((p a).2 - (p b).2) ^ 2)
      = 2 * ((n : ℚ) * (∑ a, ((p a).1 ^ 2 + (p a).2 ^ 2)) -
        (∑ a, (p a).1) ^ 2 - (∑ a, (p a).2) ^ 2) := by
    have hsplit : ∑ a : Fin n, ∑ b : Fin n,
        (((p a).1 - (p b).1) ^ 2 + ((p a).2 - (p b).2) ^ 2)
        = (∑ a : Fin n, ∑ b : Fin n, ((p a).1 - (p b).1) ^ 2) +
          ∑ a : Fin n, ∑ b : Fin n, ((p a).2 - (p b).2) ^ 2 := by
      rw [← Finset.sum_add_distrib]
      exact Finset.sum_congr rfl fun a _ => Finset.sum_add_distrib
    rw [hsplit, sq_gap_expand n (fun a => (p a).1), sq_gap_expand n (fun a => (p a).2),
      Finset.sum_add_distrib]
    ring
  have hterm : 0 < ((p i).1 - (p j).1) ^ 2 + ((p i).2 - (p j).2) ^ 2 := by
    have hco : (p i).1 - (p j).1 ≠ 0 ∨ (p i).2 - (p j).2 ≠ 0 := by
      by_contra hc
      push_neg at hc
      exact hne (Prod.ext (by linarith [hc.1]) (by linarith [hc.2]))
    rcases (sum_sq_ne_zero _ _ hco).lt_or_lt with h | h
    · nlinarith [sq_nonneg ((p i).1 - (p j).1), sq_nonneg ((p i).2 - (p j).2)]
    · exact h
  have hlow := double_sum_lower n
    (fun a b => ((p a).1 - (p b).1) ^ 2 + ((p a).2 - (p b).2) ^ 2)
    (fun a b => by positivity) i j
  rw [hT] at hlow
  linarith

theorem design2_mulVec (p0 p1 : Pt) (t : AffineTransform) :
    (design2 p0 p1).mulVec ![t.a, t.b, t.c, t.d]
      = target2 (t.apply_transform p0) (t.apply_transform p1) := by
  funext r
  fin_cases r <;>
    simp [design2, target2, Matrix.mulVec, Matrix.dotProduct, Fin.sum_univ_four,
      AffineTransform.apply_transform] <;> ring

theorem designN_mulVec {n : ℕ} (p : Fin n → Pt) (t : AffineTransform) :
    (designN p).mulVec ![t.a, t.b, t.c, t.d]
      = targetN (fun i => t.apply_transform (p i)) := by
  funext r
  obtain ⟨a, b⟩ := r
  fin_cases b <;>
    simp [designN, targetN, Matrix.mulVec, Matrix.dotProduct, Fin.sum_univ_four,
      AffineTransform.apply_transform] <;> ring

/-- C5: `calc_affine_transform` builds the `2n × 4` design matrix with two
linear equations in `(a, b, c, d)` per correspondence (`design2`/`designN`),
solves the exactly-determined `4 × 4` system when `n = 2` and least squares
otherwise; consequently on zero-noise correspondences generated by any
similarity transform — with at least two distinct source points, which makes
the respective system nonsingular / full-column-rank — it reproduces the
generating transform exactly, for `n = 2` and `n > 2` alike. -/
theorem c5_calc_affine_exact (src : List Pt) (t : AffineTransform)
    (hlen : 2 ≤ src.length)
    (hne : ∃ i j : Fin src.length, src.get i ≠ src.get j) :
    calc_affine_transform src (src.map t.apply_transform) = t := by
  obtain ⟨i, j, hij⟩ := hne
  have hmap : ∀ k, k < src.length →
      (src.map t.apply_transform).getD k (0, 0) = t.apply_transform (src.getD k (0, 0)) := by
    intro k hk
    rw [List.getD_eq_getElem _ _ (by simpa using hk), List.getElem_map,
      List.getD_eq_getElem _ _ hk]
  by_cases hn2 : src.length = 2
  · simp only [calc_affine_transform, if_pos hn2]
    have h0 : (0 : ℕ) < src.length := by omega
    have h1 : (1 : ℕ) < src.length := by omega
    have hpne : src.getD 0 (0, 0) ≠ src.getD 1 (0, 0) := by
      rw [List.getD_eq_getElem _ _ h0, List.getD_eq_getElem _ _ h1]
      have hiv : i.1 = 0 ∨ i.1 = 1 := by omega
      have hjv : j.1 = 0 ∨ j.1 = 1 := by omega
      have hij' : src[i.1] ≠ src[j.1] := by
        simpa [List.get_eq_getElem] using hij
      rcases hiv with hi | hi <;> rcases hjv with hj | hj <;>
        simp only [hi, hj] at hij' <;>
        first | (exact absurd rfl hij') | exact hij' | exact hij'.symm
    have hdet : (design2 (src.getD 0 (0, 0)) (src.getD 1 (0, 0))).det ≠ 0 := by
      rw [det_design2]
      apply sum_sq_ne_zero
      by_contra hc
      push_neg at hc
      exact hpne (Prod.ext (by linarith [hc.1]) (by linarith [hc.2])).symm
    rw [hmap 0 h0, hmap 1 h1, ← design2_mulVec, lin_solve_exact _ _ hdet]
    rfl
  · simp only [calc_affine_transform, if_neg hn2]
    have hpij : (fun k : Fin src.length => src.getD k.1 (0, 0)) i ≠
        (fun k : Fin src.length => src.getD k.1 (0, 0)) j := by
      simpa [List.getD_eq_getElem _ _ i.isLt, List.getD_eq_getElem _ _ j.isLt,
        List.get_eq_getElem] using hij
    have hdet : ((designN fun k : Fin src.length => src.getD k.1 (0, 0)).transpose *
        designN fun k : Fin src.length => src.getD k.1 (0, 0)).det ≠ 0 := by
      rw [designN_gram, det_gram]
      exact pow_ne_zero _ (ne_of_gt (gram_quantity_pos _ i j hpij))
    have hq2 : (fun k : Fin src.length => (src.map t.apply_transform).getD k.1 (0, 0))
        = fun k : Fin src.length => t.apply_transform (src.getD k.1 (0, 0)) := by
      funext k
      exact hmap k.1 k.isLt
    rw [hq2,
      show targetN (fun k : Fin src.length => t.apply_transform (src.getD k.1 (0, 0)))
          = (designN fun k : Fin src.length => src.getD k.1 (0, 0)).mulVec
              ![t.a, t.b, t.c, t.d] from (designN_mulVec _ t).symm,
      lstsq_exact _ _ hdet]
    rfl

/-- Witness for C5 at three concrete correspondences of a concrete transform. -/
theorem c5_calc_affine_exact_witness :
    2 ≤ ([((0 : ℚ), (0 : ℚ)), (2, 1), (5, 3)] : List Pt).length ∧
    (∃ i j : Fin ([((0 : ℚ), (0 : ℚ)), (2, 1), (5, 3)] : List Pt).length,
      ([((0 : ℚ), (0 : ℚ)), (2, 1), (5, 3)] : List Pt).get i ≠
        ([((0 : ℚ), (0 : ℚ)), (2, 1), (5, 3)] : List Pt).get j) ∧
    calc_affine_transform [((0 : ℚ), (0 : ℚ)), (2, 1), (5, 3)]
        (([((0 : ℚ), (0 : ℚ)), (2, 1), (5, 3)] : List Pt).map
          (AffineTransform.mk 2 1 3 (-4)).apply_transform)
      = AffineTransform.mk 2 1 3 (-4) :=
  ⟨by norm_num, ⟨⟨0, by norm_num⟩, ⟨1, by norm_num⟩, by decide⟩,
    c5_calc_affine_exact [((0 : ℚ), (0 : ℚ)), (2, 1), (5, 3)]
      (AffineTransform.mk 2 1 3 (-4)) (by norm_num)
      ⟨⟨0, by norm_num⟩, ⟨1, by norm_num⟩, by decide⟩⟩

/-!
## Detection catalog (`trim_cat`)

A detection record carries the five SExtractor columns the core uses.
`trim_cat` filters on FWHM/FLAGS, sorts ascending by flux and reverses
(astropy `sort` + `reverse`, i.e. descending), removes BOTH members of every
pair of detections within `minsep` of each other
(`cKDTree.query_pairs(minsep)` returns all index pairs `i < j` at distance
**at most** `minsep`), and truncates to the leading `ndets` rows.
-/

/-- A detection record: `X_IMAGE, Y_IMAGE, FLUX_BEST, FWHM_IMAGE, FLAGS`. -/
structure Det where
  x : ℚ
  y : ℚ
  flux : ℚ
  fwhm : ℚ
  flags : ℤ
deriving DecidableEq, Inhabited

/-- `get_det_coords`. -/
def det_coords (d : Det) : Pt := (d.x, d.y)

/-- `cKDTree.query_pairs(minsep)`: all pairs `i < j` of row indices whose
points are within distance `minsep` (inclusive), in squared form. -/
def close_pairs (l : List Det) (minsep : ℚ) : List (ℕ × ℕ) :=
  (List.range l.length).bind fun i =>
    ((List.range l.length).filter fun j =>
      decide (i < j) &&
        decide (sqd (det_coords (l.getD i default)) (det_coords (l.getD j default))
          ≤ minsep ^ 2)).map fun j => (i, j)

/-- `trim_cat`: quality filter, flux-descending sort (stable ascending sort
then reverse, as in the source), removal of every row appearing in some close
pair (`np.unique` of the flattened pair list, then `remove_rows`), and
truncation to `ndets` rows. -/
def trim_cat (cat : List Det) (ndets : ℕ) (minfwhm : ℚ) (maxflag : ℤ)
    (minsep : ℚ) : List Det :=
  let kept := cat.filter fun d => decide (minfwhm ≤ d.fwhm) && decide (d.flags ≤ maxflag)
  let sorted := (kept.insertionSort fun a b => a.flux ≤ b.flux).reverse
  let toRemove := (close_pairs sorted minsep).bind fun ij => [ij.1, ij.2]
  let survivors := (List.range sorted.length).filterMap fun i =>
    if toRemove.contains i then none else some (sorted.getD i default)
  survivors.take ndets

/-- The amended claim's description of `trim_cat` (C4): same quality filter,
same flux-descending sort, then remove every detection having ANOTHER
detection within distance ≤ `minsep` (both members of every close pair), and
truncate to `ndets`. -/
def trim_cat_amended (cat : List Det) (ndets : ℕ) (minfwhm : ℚ) (maxflag : ℤ)
    (minsep : ℚ) : List Det :=
  let kept := cat.filter fun d => decide (minfwhm ≤ d.fwhm) && decide (d.flags ≤ maxflag)
  let sorted := (kept.insertionSort fun a b => a.flux ≤ b.flux).reverse
  let survivors := (List.range sorted.length).filterMap fun i =>
    if (List.range sorted.length).any fun j =>
        decide (j ≠ i) &&
          decide (sqd (det_coords (sorted.getD i default)) (det_coords (sorted.getD j default))
            ≤ minsep ^ 2)
    then none else some (sorted.getD i default)
  survivors.take ndets

/-- The claim's literal description of `trim_cat` (C4 as frozen): identical
but removing only pairs STRICTLY closer than `minsep`. -/
def trim_cat_claim (cat : List Det) (ndets : ℕ) (minfwhm : ℚ) (maxflag : ℤ)
    (minsep : ℚ) : List Det :=
  let kept := cat.filter fun d => decide (minfwhm ≤ d.fwhm) && decide (d.flags ≤ maxflag)
  let sorted := (kept.insertionSort fun a b => a.flux ≤ b.flux).reverse
  let survivors := (List.range sorted.length).filterMap fun i =>
    if (List.range sorted.length).any fun j =>
        decide (j ≠ i) &&
          decide (sqd (det_coords (sorted.getD i default)) (det_coords (sorted.getD j default))
            < minsep ^ 2)
    then none else some (sorted.getD i default)
  survivors.take ndets

/-- Membership in the flattened close-pair list is exactly "has another row
within `minsep`". -/
theorem mem_toRemove_iff (l : List Det) (minsep : ℚ) (i : ℕ) :
    i ∈ ((close_pairs l minsep).bind fun ij => [ij.1, ij.2]) ↔
      i < l.length ∧ ∃ j, j < l.length ∧ j ≠ i ∧
        sqd (det_coords (l.getD i default)) (det_coords (l.getD j default))
          ≤ minsep ^ 2 := by
  simp only [close_pairs, List.mem_bind, List.mem_map, List.mem_filter,
    List.mem_range, Bool.and_eq_true, decide_eq_true_eq, List.mem_cons,
    List.mem_singleton, List.not_mem_nil, or_false]
  constructor
  · rintro ⟨⟨a, b⟩, ⟨a', ha', b', ⟨⟨hb', hab, hd⟩, heq⟩⟩, hi⟩
    injection heq with h1 h2
    subst h1
    subst h2
    rcases hi with rfl | rfl
    · exact ⟨ha', b', hb', by omega, hd⟩
    · exact ⟨hb', a', ha', by omega, by rwa [sqd_comm]⟩
  · rintro ⟨hi, j, hj, hne, hd⟩
    rcases lt_or_gt_of_ne (Ne.symm hne) with hij | hij
    · exact ⟨(i, j), ⟨i, hi, j, ⟨⟨hj, hij, hd⟩, rfl⟩⟩, Or.inl rfl⟩
    · exact ⟨(j, i), ⟨j, hj, i, ⟨⟨hi, hij, by rwa [sqd_comm]⟩, rfl⟩⟩, Or.inr rfl⟩

/-- C4 (amended): `trim_cat` equals the claim's step description with the
close-pair predicate read inclusively (distance ≤ `minsep`, as
`cKDTree.query_pairs` computes): filter on `fwhm`/`flags`, sort descending by
flux, remove BOTH members of every pair within `minsep`, truncate to `ndets`. -/
theorem c4_trim_cat_amended (cat : List Det) (ndets : ℕ) (minfwhm : ℚ)
    (maxflag : ℤ) (minsep : ℚ) :
    trim_cat cat ndets minfwhm maxflag minsep =
      trim_cat_amended cat ndets minfwhm maxflag minsep := by
  simp only [trim_cat, trim_cat_amended]
  refine congrArg (List.take ndets) (List.filterMap_congr fun i hi => ?_)
  rw [List.mem_range] at hi
  refine if_congr ?_ rfl rfl
  rw [show ∀ l : List ℕ, (l.contains i = true) = (i ∈ l) from fun l => by
    simp [List.contains, List.elem_iff]]
  rw [mem_toRemove_iff]
  simp only [List.any_eq_true, List.mem_range, Bool.and_eq_true, decide_eq_true_eq]
  constructor
  · rintro ⟨-, j, hj, hne, hd⟩
    exact ⟨j, hj, hne, hd⟩
  · rintro ⟨j, hj, hne, hd⟩
    exact ⟨hi, j, hj, hne, hd⟩

/-- Counterexample to C4 as frozen: two valid detections exactly `minsep`
apart.  `query_pairs` is inclusive, so the code removes both, while the
claim's "closer than `minsep`" (strict) keeps both. -/
theorem c4_counterexample :
    trim_cat [⟨0, 0, 2, 3, 0⟩, ⟨2, 0, 1, 3, 0⟩] 2 2 7 2 ≠
      trim_cat_claim [⟨0, 0, 2, 3, 0⟩, ⟨2, 0, 1, 3, 0⟩] 2 2 7 2 := by
  norm_num [trim_cat, trim_cat_claim, close_pairs, sqd, det_coords,
    List.insertionSort, List.orderedInsert, List.range_succ, List.filterMap_cons]
  simp

/-!
## Correspondence finder (`match_dets`)

`match_dets` maps all source coordinates through the transform, builds the
full distance matrix to the template coordinates, argsorts each row
(`np.argsort`, modelled by a stable insertion sort on indices keyed by the
distances), and accepts a source detection iff the nearest sorted distance is
`≤ maxmatchdist` and the second-nearest is `≥ 2 × maxmatchdist`; matched
template rows are selected by the per-row argsort head.
-/

/-- `np.argsort` of a distance row: the row indices stably sorted by their
keyed values. -/
def argsortIdx (ds : List ℚ) : List ℕ :=
  (List.range ds.length).insertionSort fun i j => ds.getD i 0 ≤ ds.getD j 0

/-- The sorted distance row `dists_sort = dists[argsort]`. -/
def sortedDistsList (ds : List ℚ) : List ℚ :=
  (argsortIdx ds).map fun i => ds.getD i 0

theorem map_getD_range (l : List ℚ) :
    (List.range l.length).map (fun i => l.getD i 0) = l := by
  induction l with
  | nil => rfl
  | cons x xs ih =>
    rw [List.length_cons, List.range_succ_eq_map, List.map_cons, List.map_map]
    rw [show ((fun i => (x :: xs).getD i 0) ∘ Nat.succ) = (fun i => xs.getD i 0) from
      funext fun i => List.getD_cons_succ]
    rw [ih]
    rfl

theorem argsortIdx_perm (ds : List ℚ) : List.Perm (argsortIdx ds) (List.range ds.length) :=
  List.perm_insertionSort _ _

theorem sortedDistsList_perm (ds : List ℚ) : List.Perm (sortedDistsList ds) ds := by
  have h1 : List.Perm (sortedDistsList ds) ((List.range ds.length).map fun i => ds.getD i 0) :=
    (argsortIdx_perm ds).map _
  rwa [map_getD_range] at h1

theorem sortedDistsList_sorted (ds : List ℚ) :
    (sortedDistsList ds).Sorted (· ≤ ·) := by
  letI : IsTotal ℕ fun i j => ds.getD i 0 ≤ ds.getD j 0 := ⟨fun a b => le_total _ _⟩
  letI : IsTrans ℕ fun i j => ds.getD i 0 ≤ ds.getD j 0 :=
    ⟨fun a b c hab hbc => le_trans hab hbc⟩
  have hs : (argsortIdx ds).Sorted fun i j => ds.getD i 0 ≤ ds.getD j 0 :=
    List.sorted_insertionSort _ _
  exact List.pairwise_map.mpr hs

theorem sortedDistsList_length (ds : List ℚ) :
    (sortedDistsList ds).length = ds.length := (sortedDistsList_perm ds).length_eq

/-- The row of squared distances from a transformed source detection to all
template coordinates. -/
def dist_row (templCat : List Det) (t : AffineTransform) (d : Det) : List ℚ :=
  (templCat.map det_coords).map fun c => sqd (t.apply_transform (det_coords d)) c

theorem dist_row_length (templCat : List Det) (t : AffineTransform) (d : Det) :
    (dist_row templCat t d).length = templCat.length := by
  simp [dist_row]

/-- The acceptance test of `match_dets`:
`dists_sort[0] <= maxmatchdist & dists_sort[1] >= 2*maxmatchdist`
(in squared form). -/
def passed_det (templCat : List Det) (t : AffineTransform) (mmd : ℚ) (d : Det) : Bool :=
  match sortedDistsList (dist_row templCat t d) with
  | v0 :: v1 :: _ => decide (v0 ≤ mmd ^ 2 ∧ 4 * mmd ^ 2 ≤ v1)
  | _ => false

/-- `match_dets`: returns `np.sum(passed)` along with
`source_cat[passed]` and `template_cat[dists_argsort[passed, 0]]`. -/
def match_dets (sourceCat templCat : List Det) (t : AffineTransform) (mmd : ℚ) :
    ℕ × List Det × List Det :=
  let smatch := sourceCat.filter (passed_det templCat t mmd)
  let tmatch := smatch.map fun d =>
    templCat.getD ((argsortIdx (dist_row templCat t d)).headD 0) default
  (smatch.length, smatch, tmatch)

theorem sorted_head_min (ds : List ℚ) (v0 : ℚ) (tl : List ℚ)
    (h : sortedDistsList ds = v0 :: tl) : v0 ∈ ds ∧ ∀ v ∈ ds, v0 ≤ v := by
  have hperm := sortedDistsList_perm ds
  have hsorted := sortedDistsList_sorted ds
  rw [h] at hperm hsorted
  refine ⟨hperm.mem_iff.mp (List.mem_cons_self _ _), fun v hv => ?_⟩
  rcases List.mem_cons.mp (hperm.mem_iff.mpr hv) with h0 | h0
  · exact le_of_eq h0.symm
  · exact List.rel_of_sorted_cons hsorted v h0

theorem sorted_second_min (ds : List ℚ) (v0 v1 : ℚ) (tl : List ℚ)
    (h : sortedDistsList ds = v0 :: v1 :: tl) :
    v1 ∈ ds.erase v0 ∧ ∀ v ∈ ds.erase v0, v1 ≤ v := by
  have hperm := sortedDistsList_perm ds
  have hsorted := sortedDistsList_sorted ds
  rw [h] at hperm hsorted
  have hpe : List.Perm (v1 :: tl) (ds.erase v0) := by
    have h2 := hperm.erase v0
    rwa [List.erase_cons_head] at h2
  refine ⟨hpe.mem_iff.mp (List.mem_cons_self _ _), fun v hv => ?_⟩
  rcases List.mem_cons.mp (hpe.mem_iff.mpr hv) with h0 | h0
  · exact le_of_eq h0.symm
  · exact List.rel_of_sorted_cons hsorted.of_cons v h0

/-- The spec-level acceptance predicate of C2: nearest template distance
within `maxmatchdist` and second-nearest at least `2 × maxmatchdist`
(squared form). -/
def near_spec (mmd2 : ℚ) (ds : List ℚ) : Prop :=
  ∃ m0, m0 ∈ ds ∧ (∀ v ∈ ds, m0 ≤ v) ∧ m0 ≤ mmd2 ∧
    ∃ m1, m1 ∈ ds.erase m0 ∧ (∀ v ∈ ds.erase m0, m1 ≤ v) ∧ 4 * mmd2 ≤ m1

theorem passed_det_iff (templCat : List Det) (t : AffineTransform) (mmd : ℚ)
    (d : Det) (ht : 2 ≤ templCat.length) :
    passed_det templCat t mmd d = true ↔ near_spec (mmd ^ 2) (dist_row templCat t d) := by
  have hlen2 : 2 ≤ (sortedDistsList (dist_row templCat t d)).length := by
    rw [sortedDistsList_length, dist_row_length]
    exact ht
  unfold passed_det
  rcases hsort : sortedDistsList (dist_row templCat t d) with _ | ⟨v0, _ | ⟨v1, rest⟩⟩
  · rw [hsort] at hlen2; simp at hlen2
  · rw [hsort] at hlen2; simp at hlen2
  · obtain ⟨hv0mem, hv0lb⟩ := sorted_head_min _ _ _ hsort
    obtain ⟨hv1mem, hv1lb⟩ := sorted_second_min _ _ _ _ hsort
    simp only [decide_eq_true_eq]
    constructor
    · rintro ⟨h0, h1⟩
      exact ⟨v0, hv0mem, hv0lb, h0, v1, hv1mem, hv1lb, h1⟩
    · rintro ⟨m0, hm0mem, hm0lb, hm0le, m1, hm1mem, hm1lb, hm1ge⟩
      have hv0 : v0 = m0 := le_antisymm (hv0lb m0 hm0mem) (hm0lb v0 hv0mem)
      subst hv0
      have hv1 : v1 = m1 := le_antisymm (hv1lb m1 hm1mem) (hm1lb v1 hv1mem)
      subst hv1
      exact ⟨hm0le, hm1ge⟩

theorem argsort_head_nearest (ds : List ℚ) (hlen : 1 ≤ ds.length) :
    (argsortIdx ds).headD 0 < ds.length ∧
    ds.getD ((argsortIdx ds).headD 0) 0 ∈ ds ∧
    ∀ v ∈ ds, ds.getD ((argsortIdx ds).headD 0) 0 ≤ v := by
  have hl : (argsortIdx ds).length = ds.length :=
    (argsortIdx_perm ds).length_eq.trans (List.length_range _)
  rcases ha : argsortIdx ds with _ | ⟨hd, tl⟩
  · rw [ha] at hl
    simp at hl
    omega
  · have hhd : (argsortIdx ds).headD 0 = hd := by rw [ha]; rfl
    have hmem : hd ∈ argsortIdx ds := by rw [ha]; exact List.mem_cons_self _ _
    have hdlt : hd < ds.length := by
      have h2 := (argsortIdx_perm ds).mem_iff.mp hmem
      simpa [List.mem_range] using h2
    have hsort0 : sortedDistsList ds = ds.getD hd 0 :: tl.map fun i => ds.getD i 0 := by
      rw [sortedDistsList, ha]
      rfl
    obtain ⟨hm, hlb⟩ := sorted_head_min _ _ _ hsort0
    exact ⟨hdlt, hm, hlb⟩

theorem dist_row_getD (templCat : List Det) (t : AffineTransform) (d : Det)
    (k : ℕ) (hk : k < templCat.length) :
    (dist_row templCat t d).getD k 0 =
      sqd (t.apply_transform (det_coords d)) (det_coords (templCat.getD k default)) := by
  have h1 : k < (dist_row templCat t d).length := by
    rw [dist_row_length]
    exact hk
  rw [dist_row] at h1 ⊢
  rw [List.getD_eq_getElem _ _ h1, List.getElem_map, List.getElem_map,
    List.getD_eq_getElem _ _ hk]

/-- C2: `match_dets` maps every source point through the transform, accepts a
source detection iff its nearest squared template distance is within
`maxmatchdist²` and its second-nearest is at least `(2·maxmatchdist)²`, and
returns the match count together with two index-paired matched-detection
lists of equal length, the paired template detection attaining the minimal
distance. -/
theorem c2_match_dets_spec (sourceCat templCat : List Det) (t : AffineTransform)
    (mmd : ℚ) (ht : 2 ≤ templCat.length) :
    (match_dets sourceCat templCat t mmd).1 =
        (match_dets sourceCat templCat t mmd).2.1.length ∧
    (match_dets sourceCat templCat t mmd).2.2.length =
        (match_dets sourceCat templCat t mmd).2.1.length ∧
    (∀ d : Det, d ∈ (match_dets sourceCat templCat t mmd).2.1 ↔
        d ∈ sourceCat ∧ near_spec (mmd ^ 2) (dist_row templCat t d)) ∧
    ∀ (k : ℕ) (hk : k < (match_dets sourceCat templCat t mmd).2.1.length)
      (hk2 : k < (match_dets sourceCat templCat t mmd).2.2.length),
      sqd (t.apply_transform (det_coords
            ((match_dets sourceCat templCat t mmd).2.1.get ⟨k, hk⟩)))
          (det_coords ((match_dets sourceCat templCat t mmd).2.2.get ⟨k, hk2⟩))
        ∈ dist_row templCat t ((match_dets sourceCat templCat t mmd).2.1.get ⟨k, hk⟩) ∧
      ∀ v ∈ dist_row templCat t ((match_dets sourceCat templCat t mmd).2.1.get ⟨k, hk⟩),
        sqd (t.apply_transform (det_coords
              ((match_dets sourceCat templCat t mmd).2.1.get ⟨k, hk⟩)))
            (det_coords ((match_dets sourceCat templCat t mmd).2.2.get ⟨k, hk2⟩)) ≤ v := by
  refine ⟨rfl, by simp [match_dets], fun d => ?_, fun k hk hk2 => ?_⟩
  · simp only [match_dets]
    rw [List.mem_filter, passed_det_iff templCat t mmd d ht]
  · simp only [match_dets] at hk hk2 ⊢
    rw [List.get_eq_getElem, List.get_eq_getElem, List.getElem_map]
    set dk := (sourceCat.filter (passed_det templCat t mmd))[k] with hdk
    set ds := dist_row templCat t dk with hds
    have hds1 : 1 ≤ ds.length := by
      rw [hds, dist_row_length]
      omega
    obtain ⟨hlt, hmem, hlb⟩ := argsort_head_nearest ds hds1
    have hlt2 : (argsortIdx ds).headD 0 < templCat.length := by
      rw [hds, dist_row_length] at hlt
      exact hlt
    have hval := dist_row_getD templCat t dk ((argsortIdx ds).headD 0) hlt2
    rw [← hds] at hval
    rw [← hval]
    exact ⟨hmem, hlb⟩

/-- Witness for C2 at a concrete catalog pair and transform. -/
theorem c2_match_dets_spec_witness :
    2 ≤ ([⟨0, 0, 1, 3, 0⟩, ⟨9, 9, 1, 3, 0⟩] : List Det).length ∧
    (match_dets [⟨1, 1, 1, 3, 0⟩] [⟨0, 0, 1, 3, 0⟩, ⟨9, 9, 1, 3, 0⟩]
        (AffineTransform.mk 1 0 0 0) 5).1 =
      (match_dets [⟨1, 1, 1, 3, 0⟩] [⟨0, 0, 1, 3, 0⟩, ⟨9, 9, 1, 3, 0⟩]
        (AffineTransform.mk 1 0 0 0) 5).2.1.length :=
  ⟨by norm_num,
    (c2_match_dets_spec [⟨1, 1, 1, 3, 0⟩] [⟨0, 0, 1, 3, 0⟩, ⟨9, 9, 1, 3, 0⟩]
      (AffineTransform.mk 1 0 0 0) 5 (by norm_num)).1⟩

/-!
## Quad matcher (`find_affine_transform`)

`find_affine_transform` computes the matrix of 4-D hash distances between
template and source quads, takes per-source-quad minima (`np.min`/`np.argmin`
over the template axis), argsorts the source quads by ascending nearest-hash
distance, and examines at most `maxcands` candidates in that order; the first
candidate whose trial transform (derived from the first two canonicalized quad
points) matches more than `minnmatch` detections wins: the transform is
re-fitted on all matched correspondences, `match_dets` is re-run once with the
refined transform and its result is adopted.  The failure prints of the
source ("no matching quads", "less than minimum required") and the
`ValueError` that `scipy.spatial.distance.cdist` raises on the empty 1-D hash
arrays of an empty quadlist are modelled as the spec's terminal error kinds
(the source leaves `affine_transform = None`, which `main`/`align` treat as
terminal). -/

/-- The spec's error kinds (§7). -/
inductive AlignError where
  | configError : AlignError
  | noQuadMatch : AlignError
  | insufficientMatch : AlignError
  | residualFitError : AlignError
deriving DecidableEq

/-- A quad as produced by `quad`: the canonicalized 4 points and the hash. -/
abbrev QuadT : Type := (Fin 4 → Pt) × (ℚ × ℚ × ℚ × ℚ)

/-- Squared 4-D Euclidean distance between two quad hashes. -/
def hashSqDist (h1 h2 : ℚ × ℚ × ℚ × ℚ) : ℚ :=
  (h1.1 - h2.1) ^ 2 + (h1.2.1 - h2.2.1) ^ 2 + (h1.2.2.1 - h2.2.2.1) ^ 2 +
    (h1.2.2.2 - h2.2.2.2) ^ 2

/-- `np.min` of a list (0 on empty; the source never takes it on an empty
axis because the empty-quadlist case dies earlier in `cdist`). -/
def minD : List ℚ → ℚ
  | [] => 0
  | x :: xs => xs.foldl min x

/-- `np.argmin`: first index attaining the minimum (head of the stable
argsort). -/
def idxMinL (l : List ℚ) : ℕ := (argsortIdx l).headD 0

/-- `mindist`: for each source quad, the minimal squared hash distance to any
template quad (`np.min(dists, axis=0)`). -/
def quad_mindists (squads tquads : List QuadT) : List ℚ :=
  squads.map fun sq => minD (tquads.map fun tq => hashSqDist tq.2 sq.2)

/-- The result adopted by a successful `find_affine_transform`. -/
structure AffineResult where
  nmatch : ℕ
  smatch : List Det
  tmatch : List Det
  transform : AffineTransform
deriving Inhabited

/-- The trial transform of candidate `bi`: an exact 2-point fit through the
first two canonicalized points of the matched source/template quad pair
(`calc_affine_transform(source_quad[0][:2], template_quad[0][:2])`). -/
def fa_trial (squads tquads : List QuadT) (bi : ℕ) : AffineTransform :=
  let sq := squads.getD bi default
  let tq := tquads.getD (idxMinL (tquads.map fun t => hashSqDist t.2 sq.2)) default
  calc_affine_transform [sq.1 0, sq.1 1] [tq.1 0, tq.1 1]

/-- The candidate-success predicate of C3: hash distance below `minquaddist`
and trial-transform match count strictly above `minnmatch`. -/
def fa_success (squads tquads : List QuadT) (sourceCat templCat : List Det)
    (mmd mqd2 : ℚ) (minnmatch : ℕ) (mindists : List ℚ) (bi : ℕ) : Bool :=
  decide (mindists.getD bi 0 < mqd2) &&
    decide (minnmatch <
      (match_dets sourceCat templCat (fa_trial squads tquads bi) mmd).1)

/-- The adopted result for a successful candidate: refit on all matched
correspondences, then one more `match_dets` run with the refined transform. -/
def fa_finalize (squads tquads : List QuadT) (sourceCat templCat : List Det)
    (mmd : ℚ) (bi : ℕ) : AffineResult :=
  let m := match_dets sourceCat templCat (fa_trial squads tquads bi) mmd
  let refit := calc_affine_transform (m.2.1.map det_coords) (m.2.2.map det_coords)
  let m2 := match_dets sourceCat templCat refit mmd
  ⟨m2.1, m2.2.1, m2.2.2, refit⟩

/-- The candidate loop of `find_affine_transform` (`for i in
range(min(maxcands, len(best))) ... break / else:`). -/
def fa_loop (squads tquads : List QuadT) (sourceCat templCat : List Det)
    (mmd mqd2 : ℚ) (minnmatch : ℕ) (mindists : List ℚ) :
    List ℕ → Except AlignError AffineResult
  | [] => .error .insufficientMatch
  | bi :: rest =>
    if mindists.getD bi 0 < mqd2 then
      let m := match_dets sourceCat templCat (fa_trial squads tquads bi) mmd
      if minnmatch < m.1 then
        let refit := calc_affine_transform (m.2.1.map det_coords) (m.2.2.map det_coords)
        let m2 := match_dets sourceCat templCat refit mmd
        .ok ⟨m2.1, m2.2.1, m2.2.2, refit⟩
      else fa_loop squads tquads sourceCat templCat mmd mqd2 minnmatch mindists rest
    else fa_loop squads tquads sourceCat templCat mmd mqd2 minnmatch mindists rest

/-- `find_affine_transform`: empty hash arrays abort (`cdist` raises on 1-D
empty input, modelled as the no-quad-match kind), the `np.any(mindist <
minquaddist)` pre-check reports "no matching quads", otherwise the loop runs
over the ranked prefix of at most `maxcands` candidates. -/
def find_affine_transform (squads tquads : List QuadT) (sourceCat templCat : List Det)
    (mmd mqd : ℚ) (minnmatch maxcands : ℕ) : Except AlignError AffineResult :=
  if squads.isEmpty || tquads.isEmpty then .error .noQuadMatch
  else
    let mindists := quad_mindists squads tquads
    if mindists.any fun v => decide (v < mqd ^ 2) then
      fa_loop squads tquads sourceCat templCat mmd (mqd ^ 2) minnmatch mindists
        ((argsortIdx mindists).take maxcands)
    else .error .noQuadMatch

theorem fa_loop_first_success (squads tquads : List QuadT)
    (sourceCat templCat : List Det) (mmd mqd2 : ℚ) (minnmatch : ℕ)
    (mindists : List ℚ) (l : List ℕ) :
    fa_loop squads tquads sourceCat templCat mmd mqd2 minnmatch mindists l =
      match l.find? (fa_success squads tquads sourceCat templCat mmd mqd2 minnmatch mindists) with
      | some bi => .ok (fa_finalize squads tquads sourceCat templCat mmd bi)
      | none => .error .insufficientMatch := by
  induction l with
  | nil => rfl
  | cons bi rest ih =>
    by_cases h1 : mindists.getD bi 0 < mqd2
    · by_cases h2 : minnmatch <
          (match_dets sourceCat templCat (fa_trial squads tquads bi) mmd).1
      · simp only [fa_loop, if_pos h1, if_pos h2, List.find?_cons, fa_success,
          decide_eq_true h1, decide_eq_true h2, Bool.and_self]
        rfl
      · simp only [fa_loop, if_pos h1, if_neg h2, List.find?_cons, fa_success,
          decide_eq_true h1, decide_eq_false h2, Bool.and_false]
        exact ih
    · simp only [fa_loop, if_neg h1, List.find?_cons, fa_success,
        decide_eq_false h1, Bool.false_and]
      exact ih

/-- C3: under the pre-check that some source quad has hash distance below
`minquaddist`, `find_affine_transform` examines the candidates in ascending
order of nearest-hash distance (the ranked prefix is sorted), examines at most
`maxcands` of them, and returns the first-success semantics: the first ranked
candidate whose hash distance is below `minquaddist` and whose
2-point trial transform yields strictly more than `minnmatch` matches is
finalized — refit over all matched correspondences, `match_dets` re-run once
with the refined transform, result adopted — and no later candidate is
examined; if no examined candidate succeeds, the insufficient-match kind is
reported. -/
theorem c3_find_affine_first_success (squads tquads : List QuadT)
    (sourceCat templCat : List Det) (mmd mqd : ℚ) (minnmatch maxcands : ℕ)
    (hs : squads ≠ []) (ht : tquads ≠ [])
    (hq : (quad_mindists squads tquads).any (fun v => decide (v < mqd ^ 2)) = true) :
    List.Sorted (fun i j => (quad_mindists squads tquads).getD i 0 ≤
        (quad_mindists squads tquads).getD j 0)
      ((argsortIdx (quad_mindists squads tquads)).take maxcands) ∧
    ((argsortIdx (quad_mindists squads tquads)).take maxcands).length ≤ maxcands ∧
    find_affine_transform squads tquads sourceCat templCat mmd mqd minnmatch maxcands =
      (match ((argsortIdx (quad_mindists squads tquads)).take maxcands).find?
          (fa_success squads tquads sourceCat templCat mmd (mqd ^ 2) minnmatch
            (quad_mindists squads tquads)) with
      | some bi => .ok (fa_finalize squads tquads sourceCat templCat mmd bi)
      | none => .error .insufficientMatch) := by
  refine ⟨?_, ?_, ?_⟩
  · letI : IsTotal ℕ fun i j => (quad_mindists squads tquads).getD i 0 ≤
        (quad_mindists squads tquads).getD j 0 := ⟨fun a b => le_total _ _⟩
    letI : IsTrans ℕ fun i j => (quad_mindists squads tquads).getD i 0 ≤
        (quad_mindists squads tquads).getD j 0 :=
      ⟨fun a b c hab hbc => le_trans hab hbc⟩
    exact List.Pairwise.sublist (List.take_sublist _ _)
      (List.sorted_insertionSort _ _)
  · rw [List.length_take]
    exact min_le_left _ _
  · have hb : (squads.isEmpty || tquads.isEmpty) = false := by
      simp [List.isEmpty_iff, hs, ht]
    simp only [find_affine_transform, hb, Bool.false_eq_true, if_false, hq, if_true]
    exact fa_loop_first_success squads tquads sourceCat templCat mmd (mqd ^ 2)
      minnmatch (quad_mindists squads tquads) _

/-- Witness for C3 at concrete quad lists, discharging its hypotheses. -/
theorem c3_find_affine_first_success_witness :
    (([(![((0 : ℚ), (0 : ℚ)), (1, 1), (2, 0), (0, 2)], ((1 : ℚ), (0 : ℚ), (0 : ℚ), (1 : ℚ)))] :
        List QuadT) ≠ [] ∧
      ([(![((0 : ℚ), (0 : ℚ)), (1, 1), (2, 0), (0, 2)], ((1 : ℚ), (0 : ℚ), (0 : ℚ), (1 : ℚ)))] :
        List QuadT) ≠ [] ∧
      (quad_mindists
          [(![((0 : ℚ), (0 : ℚ)), (1, 1), (2, 0), (0, 2)], ((1 : ℚ), (0 : ℚ), (0 : ℚ), (1 : ℚ)))]
          [(![((0 : ℚ), (0 : ℚ)), (1, 1), (2, 0), (0, 2)], ((1 : ℚ), (0 : ℚ), (0 : ℚ), (1 : ℚ)))]).any
        (fun v => decide (v < (1 / 10 : ℚ) ^ 2)) = true) ∧
    ((argsortIdx (quad_mindists
        [(![((0 : ℚ), (0 : ℚ)), (1, 1), (2, 0), (0, 2)], ((1 : ℚ), (0 : ℚ), (0 : ℚ), (1 : ℚ)))]
        [(![((0 : ℚ), (0 : ℚ)), (1, 1), (2, 0), (0, 2)], ((1 : ℚ), (0 : ℚ), (0 : ℚ), (1 : ℚ)))])).take
      10).length ≤ 10 :=
  ⟨⟨by simp, by simp,
    by norm_num [quad_mindists, minD, hashSqDist]⟩,
    (c3_find_affine_first_success
      [(![((0 : ℚ), (0 : ℚ)), (1, 1), (2, 0), (0, 2)], ((1 : ℚ), (0 : ℚ), (0 : ℚ), (1 : ℚ)))]
      [(![((0 : ℚ), (0 : ℚ)), (1, 1), (2, 0), (0, 2)], ((1 : ℚ), (0 : ℚ), (0 : ℚ), (1 : ℚ)))]
      [] [] 5 (1 / 10) 0 10 (by simp) (by simp)
      (by norm_num [quad_mindists, minD, hashSqDist])).2.1⟩

/-!
## Pipeline (`__init__`, `main`, `make_quadlist`, `find_spline_transform`,
`align`)

The mutable `Spalipy` object is modelled functionally: `spalipy_init`
resolves `ndets` (Python `int()` truncation of the fractional form), performs
the `ndets < minnmatch` configuration check BEFORE trimming any catalog, and
trims both catalogs (`trim_cat` defaults `minfwhm=2, maxflag=7,
minsep=2*maxmatchdist`).  `main` builds both quad lists, runs
`find_affine_transform`, optionally fits the residual splines
(`spline_order > 0`; `scipy.interpolate.SmoothBivariateSpline` is external
numerical code, modelled as an oracle whose failure — the caught and re-raised
`dfitpackError` — is the residual-fit error kind), and `align` resamples with
`map_coordinates` over the per-pixel map `inverse ∘ + spline-offset` when
splines exist, else with the single global `affine_transform` primitive in
`matrix_form`.  `main` returning early with `affine_transform = None` (after
an unconditional diagnostic print) and the `cdist` failure on empty hash
arrays are modelled as the corresponding terminal error kinds of spec §7. -/

/-- `itertools.combinations(range(n), 4)` (ascending 4-tuples). -/
def combos4 (n : ℕ) : List (ℕ × ℕ × ℕ × ℕ) :=
  (List.range n).bind fun i =>
    ((List.range n).filter fun j => decide (i < j)).bind fun j =>
      ((List.range n).filter fun k => decide (j < k)).bind fun k =>
        ((List.range n).filter fun l => decide (k < l)).map fun l => (i, j, k, l)

/-- `make_quadlist`: quads from all 4-combinations of the brightest
`nquaddets` detections (clamped to the catalog size) whose minimum pairwise
distance exceeds `minquadsep`. -/
def make_quadlist (coo : List Pt) (nquaddets : ℕ) (minquadsep : ℚ) : List QuadT :=
  let nq := min nquaddets coo.length
  (combos4 nq).filterMap fun c =>
    let pts : Fin 4 → Pt := ![coo.getD c.1 (0, 0), coo.getD c.2.1 (0, 0),
      coo.getD c.2.2.1 (0, 0), coo.getD c.2.2.2 (0, 0)]
    if minquadsep ^ 2 < minD (pdistList pts) then some (quad pts) else none

theorem combos4_eq_nil (n : ℕ) (h : n < 4) : combos4 n = [] := by
  apply List.eq_nil_iff_forall_not_mem.mpr
  intro c hc
  simp only [combos4, List.mem_bind, List.mem_filter, List.mem_map,
    List.mem_range, decide_eq_true_eq] at hc
  obtain ⟨i, hi, j, ⟨hj, hij⟩, k, ⟨hk, hjk⟩, l, ⟨⟨hl, hkl⟩, -⟩⟩ := hc
  omega

theorem make_quadlist_eq_nil (coo : List Pt) (nq : ℕ) (ms : ℚ)
    (h : coo.length < 4) : make_quadlist coo nq ms = [] := by
  simp only [make_quadlist, combos4_eq_nil (min nq coo.length) (by omega),
    List.filterMap_nil]

/-- Python `int()`: truncation toward zero (`Int` division truncates). -/
def ratTrunc (q : ℚ) : ℤ := q.num / (q.den : ℤ)

/-- Resolution of the `ndets` parameter: an `int` is taken as is, a float `f`
becomes `int(f * min(len(source_cat), len(template_cat)))`. -/
def resolve_ndets (nd : ℤ ⊕ ℚ) (ls lt : ℕ) : ℤ :=
  match nd with
  | .inl n => n
  | .inr f => ratTrunc (f * (min ls lt : ℕ))

/-- The configuration parameters of `Spalipy.__init__` used by the core. -/
structure SpalipyConfig where
  ndets : ℤ ⊕ ℚ
  nquaddets : ℕ
  minquadsep : ℚ
  maxmatchdist : ℚ
  minnmatch : ℕ
  splineOrder : ℕ
  interpOrder : ℕ
  maxcands : ℕ
  minquaddist : ℚ

/-- The state `__init__` leaves behind: resolved `ndets` and the two trimmed
catalogs. -/
structure InitState where
  ndets : ℤ
  sourceCat : List Det
  templateCat : List Det

/-- `Spalipy.__init__`: resolve `ndets`, raise the configuration error when
`ndets < minnmatch` (BEFORE the `trim_cat` calls), else trim both catalogs
with the source defaults `minfwhm=2, maxflag=7, minsep=2*maxmatchdist`. -/
def spalipy_init (cfg : SpalipyConfig) (srcRaw tmplRaw : List Det) :
    Except AlignError InitState :=
  let nd := resolve_ndets cfg.ndets srcRaw.length tmplRaw.length
  if nd < (cfg.minnmatch : ℤ) then .error .configError
  else .ok ⟨nd, trim_cat srcRaw nd.toNat 2 7 (2 * cfg.maxmatchdist),
    trim_cat tmplRaw nd.toNat 2 7 (2 * cfg.maxmatchdist)⟩

/-- The two fitted residual surfaces (`sbs_x.ev`, `sbs_y.ev`). -/
abbrev SBS : Type := (ℚ → ℚ → ℚ) × (ℚ → ℚ → ℚ)

/-- How `align` resamples: one global affine primitive
(`scipy.ndimage.interpolation.affine_transform` with `matrix_form`), or
general per-pixel coordinate interpolation (`map_coordinates` over a
coordinate map). -/
inductive ResampleMode where
  | affinePrim : Matrix (Fin 2) (Fin 2) ℚ × Pt → ResampleMode
  | coordInterp : (Pt → Pt) → ResampleMode

/-- `spline_transform(xy, relative=True)`: the residual offset
`(0 - sbs_x.ev(x, y), 0 - sbs_y.ev(x, y))`. -/
def spline_relative (sbs : SBS) (p : Pt) : Pt :=
  (0 - sbs.1 p.1 p.2, 0 - sbs.2 p.1 p.2)

/-- `final_transform(xy)` of `align` (inverse=True): inverse similarity plus
the relative spline offset, evaluated at the output (template-frame) pixel. -/
def final_transform_map (t : AffineTransform) (sbs : SBS) (p : Pt) : Pt :=
  ((t.inverse.apply_transform p).1 + (spline_relative sbs p).1,
   (t.inverse.apply_transform p).2 + (spline_relative sbs p).2)

/-- The branch of `align` on `spline_transform is not None`. -/
def align_mode (t : AffineTransform) : Option SBS → ResampleMode
  | some sbs => .coordInterp (final_transform_map t sbs)
  | none => .affinePrim t.inverse.matrix_form

/-- The `SmoothBivariateSpline` fit, abstracted: given the matched detection
lists and the frozen transform it either converges to two surfaces or fails
(`dfitpackError`). -/
abbrev SplineOracle : Type :=
  List Det → List Det → AffineTransform → Except Unit SBS

/-- `main`'s residual stage: skipped entirely when `spline_order` is 0,
otherwise the fit failure is re-raised as the residual-fit kind. -/
def spline_stage (cfg : SpalipyConfig) (oracle : SplineOracle)
    (res : AffineResult) : Except AlignError (Option SBS) :=
  if cfg.splineOrder = 0 then .ok none
  else match oracle res.smatch res.tmatch res.transform with
    | .ok sbs => .ok (some sbs)
    | .error _ => .error .residualFitError

/-- The observable outcome of a successful `main`: the adopted affine-stage
result, the fitted residual surfaces (if any), and the resampling mode of
`align`. -/
structure PipelineResult where
  res : AffineResult
  residual : Option SBS
  mode : ResampleMode

/-- `Spalipy.main` (with `align`): initialization, quad lists, affine stage,
optional residual stage, resampling mode.  Every stage failure halts the
pipeline with its error kind. -/
def pipeline (cfg : SpalipyConfig) (srcRaw tmplRaw : List Det)
    (oracle : SplineOracle) : Except AlignError PipelineResult :=
  match spalipy_init cfg srcRaw tmplRaw with
  | .error e => .error e
  | .ok st =>
    match find_affine_transform
        (make_quadlist (st.sourceCat.map det_coords) cfg.nquaddets cfg.minquadsep)
        (make_quadlist (st.templateCat.map det_coords) cfg.nquaddets cfg.minquadsep)
        st.sourceCat st.templateCat cfg.maxmatchdist cfg.minquaddist
        cfg.minnmatch cfg.maxcands with
    | .error e => .error e
    | .ok res =>
      match spline_stage cfg oracle res with
      | .error e => .error e
      | .ok sbs => .ok ⟨res, sbs, align_mode res.transform sbs⟩

/-- C8: whenever the resolved integer `ndets` is strictly below `minnmatch`,
construction fails with the configuration-error kind, and it does so before
any catalog processing: the same failure occurs for ANY catalogs of the same
lengths (the check precedes the `trim_cat` calls and inspects only lengths
through `ndets` resolution), and the whole pipeline reports the same kind. -/
theorem c8_config_error (cfg : SpalipyConfig) (srcRaw tmplRaw : List Det)
    (h : resolve_ndets cfg.ndets srcRaw.length tmplRaw.length < (cfg.minnmatch : ℤ)) :
    spalipy_init cfg srcRaw tmplRaw = .error .configError ∧
    (∀ src' tmpl' : List Det, src'.length = srcRaw.length →
      tmpl'.length = tmplRaw.length →
      spalipy_init cfg src' tmpl' = .error .configError) ∧
    ∀ oracle : SplineOracle,
      pipeline cfg srcRaw tmplRaw oracle = .error .configError := by
  have h1 : spalipy_init cfg srcRaw tmplRaw = .error .configError := by
    simp only [spalipy_init, if_pos h]
  refine ⟨h1, fun src' tmpl' hl1 hl2 => ?_, fun oracle => ?_⟩
  · simp only [spalipy_init, hl1, hl2, if_pos h]
  · simp only [pipeline, h1]

/-- Witness for C8: `ndets = 50`, `minnmatch = 200` raises the configuration
error before any catalog is trimmed. -/
theorem c8_config_error_witness :
    resolve_ndets (Sum.inl 50) ([] : List Det).length ([] : List Det).length <
      ((200 : ℕ) : ℤ) ∧
    spalipy_init ⟨Sum.inl 50, 20, 50, 5, 200, 3, 3, 10, 1/200⟩ [] [] =
      .error .configError :=
  ⟨by norm_num [resolve_ndets],
    (c8_config_error ⟨Sum.inl 50, 20, 50, 5, 200, 3, 3, 10, 1/200⟩ [] []
      (by norm_num [resolve_ndets])).1⟩

/-- C7: the resampler's coordinate map is determined by the presence of the
residual surfaces.  With `spline_order = 0` the residual stage is skipped
entirely (the pipeline result does not depend on the spline fit at all) and a
successful run resamples by the single global affine primitive with the
inverse similarity in matrix+offset form.  When residual surfaces exist, the
mode is per-pixel coordinate interpolation whose map at every output pixel is
`inverse-similarity(x, y) + residual-offset(x, y)`; surfaces exist on success
exactly when `spline_order ≠ 0`, coming from the (converged) spline fit. -/
theorem c7_resampler_modes :
    (∀ (cfg : SpalipyConfig) (srcRaw tmplRaw : List Det) (o₁ o₂ : SplineOracle),
      cfg.splineOrder = 0 →
      pipeline cfg srcRaw tmplRaw o₁ = pipeline cfg srcRaw tmplRaw o₂) ∧
    (∀ (cfg : SpalipyConfig) (srcRaw tmplRaw : List Det) (o : SplineOracle) r,
      cfg.splineOrder = 0 → pipeline cfg srcRaw tmplRaw o = .ok r →
      r.residual = none ∧
        r.mode = .affinePrim r.res.transform.inverse.matrix_form) ∧
    (∀ (cfg : SpalipyConfig) (srcRaw tmplRaw : List Det) (o : SplineOracle) r sbs,
      pipeline cfg srcRaw tmplRaw o = .ok r → r.residual = some sbs →
      r.mode = .coordInterp (final_transform_map r.res.transform sbs)) ∧
    (∀ (t : AffineTransform) (sbs : SBS) (p : Pt),
      final_transform_map t sbs p =
        ((t.inverse.apply_transform p).1 + (0 - sbs.1 p.1 p.2),
         (t.inverse.apply_transform p).2 + (0 - sbs.2 p.1 p.2))) ∧
    (∀ (cfg : SpalipyConfig) (srcRaw tmplRaw : List Det) (o : SplineOracle) r,
      cfg.splineOrder ≠ 0 → pipeline cfg srcRaw tmplRaw o = .ok r →
      ∃ sbs, r.residual = some sbs ∧
        o r.res.smatch r.res.tmatch r.res.transform = .ok sbs) := by
  have hstage0 : ∀ (cfg : SpalipyConfig) (o : SplineOracle) res,
      cfg.splineOrder = 0 → spline_stage cfg o res = .ok none := by
    intro cfg o res h0
    simp only [spline_stage, if_pos h0]
  refine ⟨?_, ?_, ?_, fun t sbs p => rfl, ?_⟩
  · intro cfg srcRaw tmplRaw o₁ o₂ h0
    rcases hinit : spalipy_init cfg srcRaw tmplRaw with e | st
    · simp only [pipeline, hinit]
    · rcases hfind : find_affine_transform
          (make_quadlist (st.sourceCat.map det_coords) cfg.nquaddets cfg.minquadsep)
          (make_quadlist (st.templateCat.map det_coords) cfg.nquaddets cfg.minquadsep)
          st.sourceCat st.templateCat cfg.maxmatchdist cfg.minquaddist
          cfg.minnmatch cfg.maxcands with e | res
      · simp only [pipeline, hinit, hfind]
      · simp only [pipeline, hinit, hfind, hstage0 cfg o₁ res h0, hstage0 cfg o₂ res h0]
  · intro cfg srcRaw tmplRaw o r h0 hok
    rcases hinit : spalipy_init cfg srcRaw tmplRaw with e | st
    · simp only [pipeline, hinit] at hok
      exact absurd hok (by simp)
    · rcases hfind : find_affine_transform
          (make_quadlist (st.sourceCat.map det_coords) cfg.nquaddets cfg.minquadsep)
          (make_quadlist (st.templateCat.map det_coords) cfg.nquaddets cfg.minquadsep)
          st.sourceCat st.templateCat cfg.maxmatchdist cfg.minquaddist
          cfg.minnmatch cfg.maxcands with e | res
      · simp only [pipeline, hinit, hfind] at hok
        exact absurd hok (by simp)
      · simp only [pipeline, hinit, hfind, hstage0 cfg o res h0] at hok
        obtain rfl : PipelineResult.mk res none (align_mode res.transform none) = r := by
          simpa using hok
        exact ⟨rfl, rfl⟩
  · intro cfg srcRaw tmplRaw o r sbs hok hres
    rcases hinit : spalipy_init cfg srcRaw tmplRaw with e | st
    · simp only [pipeline, hinit] at hok
      exact absurd hok (by simp)
    · rcases hfind : find_affine_transform
          (make_quadlist (st.sourceCat.map det_coords) cfg.nquaddets cfg.minquadsep)
          (make_quadlist (st.templateCat.map det_coords) cfg.nquaddets cfg.minquadsep)
          st.sourceCat st.templateCat cfg.maxmatchdist cfg.minquaddist
          cfg.minnmatch cfg.maxcands with e | res
      · simp only [pipeline, hinit, hfind] at hok
        exact absurd hok (by simp)
      · rcases hst : spline_stage cfg o res with e | sbs0
        · simp only [pipeline, hinit, hfind, hst] at hok
          exact absurd hok (by simp)
        · simp only [pipeline, hinit, hfind, hst] at hok
          obtain rfl : PipelineResult.mk res sbs0 (align_mode res.transform sbs0) = r := by
            simpa using hok
          obtain rfl : sbs0 = some sbs := hres
          rfl
  · intro cfg srcRaw tmplRaw o r h0 hok
    rcases hinit : spalipy_init cfg srcRaw tmplRaw with e | st
    · simp only [pipeline, hinit] at hok
      exact absurd hok (by simp)
    · rcases hfind : find_affine_transform
          (make_quadlist (st.sourceCat.map det_coords) cfg.nquaddets cfg.minquadsep)
          (make_quadlist (st.templateCat.map det_coords) cfg.nquaddets cfg.minquadsep)
          st.sourceCat st.templateCat cfg.maxmatchdist cfg.minquaddist
          cfg.minnmatch cfg.maxcands with e | res
      · simp only [pipeline, hinit, hfind] at hok
        exact absurd hok (by simp)
      · rcases hst : spline_stage cfg o res with e | sbs0
        · simp only [pipeline, hinit, hfind, hst] at hok
          exact absurd hok (by simp)
        · simp only [pipeline, hinit, hfind, hst] at hok
          obtain rfl : PipelineResult.mk res sbs0 (align_mode res.transform sbs0) = r := by
            simpa using hok
          unfold spline_stage at hst
          rw [if_neg h0] at hst
          rcases horacle : o res.smatch res.tmatch res.transform with e | sbs
          · rw [horacle] at hst
            exact absurd hst (by simp)
          · rw [horacle] at hst
            obtain rfl : some sbs = sbs0 := by simpa using hst
            exact ⟨sbs, rfl, rfl⟩

theorem spalipy_init_error_kind (cfg : SpalipyConfig) (srcRaw tmplRaw : List Det)
    (e : AlignError) (h : spalipy_init cfg srcRaw tmplRaw = .error e) :
    e = .configError := by
  unfold spalipy_init at h
  by_cases hc : resolve_ndets cfg.ndets srcRaw.length tmplRaw.length <
      (cfg.minnmatch : ℤ)
  · rw [if_pos hc] at h
    exact (by simpa using h : AlignError.configError = e).symm
  · rw [if_neg hc] at h
    exact absurd h (by simp)

/-- C9: every stage failure is terminal — the pipeline's value is either a
stage's specific error kind or a success whose adopted result comes from the
validated affine stage (`find_affine_transform = .ok r.res`) and whose
resampling mode is built from that validated transform; no resampling mode
exists otherwise, and nothing downstream of a failed stage runs.  Moreover,
when both trimmed catalogs have fewer than 4 usable detections the pipeline
reports the configuration kind or the no-quad-match kind (the quad stage's
failure: the quad lists are empty, on which the source dies in `cdist` before
any alignment), never a silent empty alignment. -/
theorem c9_terminal_errors :
    (∀ (cfg : SpalipyConfig) (srcRaw tmplRaw : List Det) (o : SplineOracle) r,
      pipeline cfg srcRaw tmplRaw o = .ok r →
      ∃ st, spalipy_init cfg srcRaw tmplRaw = .ok st ∧
        find_affine_transform
            (make_quadlist (st.sourceCat.map det_coords) cfg.nquaddets cfg.minquadsep)
            (make_quadlist (st.templateCat.map det_coords) cfg.nquaddets cfg.minquadsep)
            st.sourceCat st.templateCat cfg.maxmatchdist cfg.minquaddist
            cfg.minnmatch cfg.maxcands = .ok r.res ∧
        r.mode = align_mode r.res.transform r.residual) ∧
    (∀ (cfg : SpalipyConfig) (srcRaw tmplRaw : List Det) (o : SplineOracle),
      (∀ st, spalipy_init cfg srcRaw tmplRaw = .ok st → st.sourceCat.length < 4) →
      pipeline cfg srcRaw tmplRaw o = .error .configError ∨
        pipeline cfg srcRaw tmplRaw o = .error .noQuadMatch) := by
  constructor
  · intro cfg srcRaw tmplRaw o r hok
    rcases hinit : spalipy_init cfg srcRaw tmplRaw with e | st
    · simp only [pipeline, hinit] at hok
      exact absurd hok (by simp)
    · rcases hfind : find_affine_transform
          (make_quadlist (st.sourceCat.map det_coords) cfg.nquaddets cfg.minquadsep)
          (make_quadlist (st.templateCat.map det_coords) cfg.nquaddets cfg.minquadsep)
          st.sourceCat st.templateCat cfg.maxmatchdist cfg.minquaddist
          cfg.minnmatch cfg.maxcands with e | res
      · simp only [pipeline, hinit, hfind] at hok
        exact absurd hok (by simp)
      · rcases hst : spline_stage cfg o res with e | sbs0
        · simp only [pipeline, hinit, hfind, hst] at hok
          exact absurd hok (by simp)
        · simp only [pipeline, hinit, hfind, hst] at hok
          obtain rfl : PipelineResult.mk res sbs0 (align_mode res.transform sbs0) = r := by
            simpa using hok
          exact ⟨st, rfl, hfind, rfl⟩
  · intro cfg srcRaw tmplRaw o h
    rcases hinit : spalipy_init cfg srcRaw tmplRaw with e | st
    · left
      have he := spalipy_init_error_kind cfg srcRaw tmplRaw e hinit
      simp only [pipeline, hinit, he]
    · right
      have hlen : (st.sourceCat.map det_coords).length < 4 := by
        rw [List.length_map]
        exact h st hinit
      have hnil := make_quadlist_eq_nil (st.sourceCat.map det_coords)
        cfg.nquaddets cfg.minquadsep hlen
      have hfind : find_affine_transform
          (make_quadlist (st.sourceCat.map det_coords) cfg.nquaddets cfg.minquadsep)
          (make_quadlist (st.templateCat.map det_coords) cfg.nquaddets cfg.minquadsep)
          st.sourceCat st.templateCat cfg.maxmatchdist cfg.minquaddist
          cfg.minnmatch cfg.maxcands = .error .noQuadMatch := by
        rw [hnil]
        simp [find_affine_transform]
      simp only [pipeline, hinit, hfind]
